import Mathlib

/-!
Verification development for the `pull-metrics` repository
(`pullmetrics/pullmetrics.go` and its package types).

The Go source is shallowly embedded: each Go function of the derivation
engine is translated into an executable Lean definition of the same name,
and the claims of the specification are settled as theorems about those
definitions.

Conventions used throughout:
* go-github pointer fields (`*string`, `*Timestamp`, ...) are `Option`
  fields; the `GetX` accessors return the zero value on `none`, exactly as
  the generated go-github accessors do.
* `time.Time` is modelled by `GoTime`: an absolute instant as whole unix
  seconds plus nanoseconds, together with the display offset of its
  location (seconds east of UTC).  `Before`/`After` compare the instant,
  `Format`/`Parse` follow the Go standard library (see below).
* `float64` durations and ratios are modelled as exact rationals `ℚ`
  (`Duration.Hours` divides nanoseconds by 3.6e12; IEEE rounding of the
  final division is abstracted away, the integer nanosecond arithmetic
  including `Sub`'s int64 saturation is kept exact).
* Go maps used as string sets are modelled by `Finset String` /
  deduplicating folds.
-/

set_option linter.unusedVariables false

namespace PullMetrics

/-! ## Calendar arithmetic (model of Go `time` package internals)

`time.Parse`/`time.Time.Format` convert between civil fields and an
absolute count of days.  We follow the structure of Go's own
`absDate` (400/100/4/1-year cycle extraction with the `n -= n >> 2`
caps, then the `daysBefore` month table): see `src/time/time.go` in the
Go standard library.  Years are handled in a shifted coordinate
`yRel = year + 399` so that every quantity stays a natural number for
all RFC3339-parseable years (0000–9999) and one day of slack on each
side. -/

/-- Cumulative days before the (m+1)-th month of a non-leap year
(Go's `daysBefore` table), for `m` in `0..12`. -/
def daysBefore (m : Nat) : Nat :=
  match m with
  | 0 => 0 | 1 => 31 | 2 => 59 | 3 => 90 | 4 => 120 | 5 => 151 | 6 => 181
  | 7 => 212 | 8 => 243 | 9 => 273 | 10 => 304 | 11 => 334 | _ => 365

/-- Month and day-of-month from a 0-based day of a non-leap year
(the estimate-then-correct step of Go's `absDate`).  Returns a 1-based
month and day. -/
def monthDay365 (day : Nat) : Nat × Nat :=
  if day ≥ daysBefore (day / 31 + 1) then (day / 31 + 2, day - daysBefore (day / 31 + 1) + 1)
  else (day / 31 + 1, day - daysBefore (day / 31) + 1)

/-- Month and day-of-month from a 0-based day of the year, with the
leap-year adjustment of Go's `absDate` (Feb 29 special case, skip the
leap day for later dates). -/
def monthDay (leap : Bool) (yday : Nat) : Nat × Nat :=
  if leap then
    if yday = 59 then (2, 29)
    else if yday > 59 then monthDay365 (yday - 1)
    else monthDay365 yday
  else monthDay365 yday

/-- Days in month `m` (1..12) of a (non-)leap year; Go's `daysIn`. -/
def daysIn (leap : Bool) (m : Nat) : Nat :=
  if m = 2 ∧ leap then 29 else daysBefore m - daysBefore (m - 1)

/-- Relative year (`yRel`) and 0-based day of year from an absolute day
count, via Go's 400/100/4/1-year cycle extraction.  `yRel = 0` is the
year whose day 0 is absolute day 0; `yRel` relates to the RFC3339 year
by `year = yRel - 399`. -/
def yearYday (d : Nat) : Nat × Nat :=
  let n400 := d / 146097
  let d1 := d % 146097
  let q100 := d1 / 36524
  let n100 := q100 - q100 / 4
  let d2 := d1 - 36524 * n100
  let n4 := d2 / 1461
  let d3 := d2 - 1461 * n4
  let q1 := d3 / 365
  let n1 := q1 - q1 / 4
  let d4 := d3 - 365 * n1
  (400 * n400 + 100 * n100 + 4 * n4 + n1, d4)

/-- Is the relative year `y` (see `yearYday`) a leap year?  `y + 1` is
divisible by 4 exactly when the proleptic-Gregorian year is (the shift
399 ≡ -1 mod 400 preserves all three moduli). -/
def isLeapRel (y : Nat) : Bool :=
  (y + 1) % 4 == 0 && ((y + 1) % 100 != 0 || (y + 1) % 400 == 0)

/-- Absolute day count of day `yday` (0-based) of relative year `y`:
the forward direction of the cycle decomposition. -/
def daysFromYearYday (y yday : Nat) : Nat :=
  365 * y + y / 4 - y / 100 + y / 400 + yday

theorem yearYday_arith (d n400 d1 n100 d2 n4 d3 n1 d4 : Nat)
    (e00 : n400 = d / 146097) (e0 : d1 = d % 146097)
    (e2 : n100 = d1 / 36524 - d1 / 36524 / 4) (e3 : d2 = d1 - 36524 * n100)
    (e4 : n4 = d2 / 1461) (e5 : d3 = d2 - 1461 * n4)
    (e7 : n1 = d3 / 365 - d3 / 365 / 4) (e8 : d4 = d3 - 365 * n1) :
    daysFromYearYday (400 * n400 + 100 * n100 + 4 * n4 + n1) d4 = d ∧
    d4 + 1 ≤ 365 + (if isLeapRel (400 * n400 + 100 * n100 + 4 * n4 + n1) then 1 else 0) := by
  have h1 : d = 146097 * n400 + d1 ∧ d1 < 146097 := by omega
  have h2 : n100 ≤ 3 ∧ 36524 * n100 + d2 = d1 ∧ d2 ≤ 36524 ∧ (d2 = 36524 → n100 = 3) := by omega
  have h3 : n4 ≤ 24 ∧ 1461 * n4 + d3 = d2 ∧ d3 ≤ 1460 := by omega
  have h4 : n1 ≤ 3 ∧ 365 * n1 + d4 = d3 ∧ d4 ≤ 365 ∧ (d4 = 365 → n1 = 3 ∧ d3 = 1460) := by omega
  have hdiv4 : (400 * n400 + 100 * n100 + 4 * n4 + n1) / 4 = 100 * n400 + 25 * n100 + n4 := by
    omega
  have hdiv100 : (400 * n400 + 100 * n100 + 4 * n4 + n1) / 100 = 4 * n400 + n100 := by omega
  have hdiv400 : (400 * n400 + 100 * n100 + 4 * n4 + n1) / 400 = n400 := by omega
  unfold daysFromYearYday isLeapRel
  refine ⟨by rw [hdiv4, hdiv100, hdiv400]; omega, ?_⟩
  clear e00 e0 e2 e3 e4 e5 e7 e8 hdiv4 hdiv100 hdiv400 h1
  by_cases hl : d4 = 365
  · have h365 := h4.2.2.2 hl
    have hleap : ((400 * n400 + 100 * n100 + 4 * n4 + n1 + 1) % 4 == 0 &&
        ((400 * n400 + 100 * n100 + 4 * n4 + n1 + 1) % 100 != 0 ||
         (400 * n400 + 100 * n100 + 4 * n4 + n1 + 1) % 400 == 0)) = true := by
      simp only [Nat.beq_eq_true_eq, bne_iff_ne, ne_eq, Bool.and_eq_true, Bool.or_eq_true,
        decide_eq_true_eq]
      obtain ⟨hn1, hd3⟩ := h365
      obtain ⟨hb2a, hb2b, hb2c, hb2d⟩ := h2
      obtain ⟨hb3a, hb3b, hb3c⟩ := h3
      refine ⟨by omega, ?_⟩
      by_cases hc : n4 = 24
      · have hd2 : d2 = 36524 := by omega
        have hn100 : n100 = 3 := hb2d hd2
        exact Or.inr (by omega)
      · exact Or.inl (by omega)
    rw [if_pos hleap]
    omega
  · split <;> omega

/-- The cycle extraction inverts the forward day count, and the
day-of-year it produces is within the year's length. -/
theorem yearYday_roundtrip (d : Nat) :
    daysFromYearYday (yearYday d).1 (yearYday d).2 = d ∧
    (yearYday d).2 + 1 ≤ 365 + (if isLeapRel (yearYday d).1 then 1 else 0) := by
  exact yearYday_arith d (d / 146097) (d % 146097) _ _ _ _ _ _ rfl rfl rfl rfl rfl rfl rfl rfl

theorem monthDay365_spec (day : Nat) (h : day ≤ 364) :
    1 ≤ (monthDay365 day).1 ∧ (monthDay365 day).1 ≤ 12 ∧
    1 ≤ (monthDay365 day).2 ∧
    (monthDay365 day).2 ≤ daysBefore (monthDay365 day).1 - daysBefore ((monthDay365 day).1 - 1) ∧
    daysBefore ((monthDay365 day).1 - 1) + ((monthDay365 day).2 - 1) = day ∧
    (59 ≤ day → 3 ≤ (monthDay365 day).1) ∧ (day ≤ 58 → (monthDay365 day).1 ≤ 2) := by
  have hq : day / 31 ≤ 11 := by omega
  unfold monthDay365
  set q := day / 31 with hqdef
  have hqr : 31 * q ≤ day ∧ day < 31 * q + 31 := by omega
  clear_value q
  interval_cases q <;>
    simp only [daysBefore] <;> split <;> simp only [daysBefore] <;> omega

/-- `monthDay` produces a valid month/day pair whose forward day count
(including the leap-day adjustment) recovers the day of year. -/
theorem monthDay_spec (leap : Bool) (yday : Nat)
    (h : yday + 1 ≤ 365 + (if leap then 1 else 0)) :
    ∃ m dd, monthDay leap yday = (m, dd) ∧ 1 ≤ m ∧ m ≤ 12 ∧ 1 ≤ dd ∧
      dd ≤ daysIn leap m ∧
      daysBefore (m - 1) + (if leap ∧ 3 ≤ m then 1 else 0) + (dd - 1) = yday := by
  cases leap with
  | false =>
    have h364 : yday ≤ 364 := by simpa using h
    rcases h365 : monthDay365 yday with ⟨m, dd⟩
    have hs := monthDay365_spec yday h364
    rw [h365] at hs
    dsimp only at hs
    refine ⟨m, dd, by simp [monthDay, h365], hs.1, hs.2.1, hs.2.2.1, ?_, ?_⟩
    · unfold daysIn
      rw [if_neg (by simp)]
      exact hs.2.2.2.1
    · rw [if_neg (by simp)]
      have := hs.2.2.2.2.1
      omega
  | true =>
    have h365' : yday ≤ 365 := by
      rw [if_pos rfl] at h
      omega
    by_cases h59 : yday = 59
    · refine ⟨2, 29, by simp [monthDay, h59], by omega, by omega, by omega, ?_, ?_⟩
      · unfold daysIn
        rw [if_pos ⟨rfl, rfl⟩]
      · rw [if_neg (by omega)]
        subst h59
        simp [daysBefore]
    · by_cases hgt : yday > 59
      · rcases h365 : monthDay365 (yday - 1) with ⟨m, dd⟩
        have hs := monthDay365_spec (yday - 1) (by omega)
        rw [h365] at hs
        dsimp only at hs
        have hm3 : 3 ≤ m := hs.2.2.2.2.2.1 (by omega)
        refine ⟨m, dd, ?_, hs.1, hs.2.1, hs.2.2.1, ?_, ?_⟩
        · unfold monthDay
          rw [if_pos rfl, if_neg h59, if_pos hgt]
          exact h365
        · unfold daysIn
          rw [if_neg (by omega)]
          exact hs.2.2.2.1
        · rw [if_pos ⟨rfl, hm3⟩]
          have := hs.2.2.2.2.1
          omega
      · rcases h365 : monthDay365 yday with ⟨m, dd⟩
        have hs := monthDay365_spec yday (by omega)
        rw [h365] at hs
        dsimp only at hs
        have hm2 : m ≤ 2 := hs.2.2.2.2.2.2 (by omega)
        refine ⟨m, dd, ?_, hs.1, hs.2.1, hs.2.2.1, ?_, ?_⟩
        · unfold monthDay
          rw [if_pos rfl, if_neg h59, if_neg hgt]
          exact h365
        · unfold daysIn
          by_cases h2 : m = 2
          · rw [if_pos ⟨h2, rfl⟩]
            have := hs.2.2.2.1
            subst h2
            simp only [daysBefore] at this
            omega
          · rw [if_neg (by tauto)]
            exact hs.2.2.2.1
        · rw [if_neg (by omega)]
          have := hs.2.2.2.2.1
          omega

/-! ## Characters and digit strings -/

/-- Numeric value of a digit character. -/
def dVal (c : Char) : Nat := c.toNat - 48

/-- The digit character for `n % 10`. -/
def dChar (n : Nat) : Char := Char.ofNat (48 + n % 10)

/-- Two-digit zero-padded decimal rendering (Go `appendInt(b, n, 2)`,
for `n ≤ 99`). -/
def pad2 (n : Nat) : List Char := [dChar (n / 10), dChar n]

/-- Four-digit zero-padded decimal rendering (for `n ≤ 9999`). -/
def pad4 (n : Nat) : List Char := [dChar (n / 1000), dChar (n / 100), dChar (n / 10), dChar n]

/-- Five-digit decimal rendering (for `9999 < n ≤ 99999`; Go prints a
five-digit year without padding). -/
def pad5 (n : Nat) : List Char :=
  [dChar (n / 10000), dChar (n / 1000), dChar (n / 100), dChar (n / 10), dChar n]

/-- Gregorian leap-year test on the civil year (Go `isLeap`). -/
def isLeapCivil (y : Nat) : Bool := y % 4 == 0 && (y % 100 != 0 || y % 400 == 0)

theorem isLeapRel_shift (y : Nat) : isLeapRel (y + 399) = isLeapCivil y := by
  unfold isLeapRel isLeapCivil
  have h4 : (y + 399 + 1) % 4 = y % 4 := by omega
  have h100 : (y + 399 + 1) % 100 = y % 100 := by omega
  have h400 : (y + 399 + 1) % 400 = y % 400 := by omega
  rw [h4, h100, h400]

/-! ## RFC3339 parsing (model of Go `time.parseRFC3339`)

Since Go 1.20, `time.Parse` with the `time.RFC3339` layout accepts
exactly the strict grammar implemented by `parseRFC3339` in
`src/time/format_rfc3339.go`: `yyyy-mm-ddThh:mm:ss`, an optional
fractional-second field (a period followed by at least one digit; the
first nine digits give nanoseconds), and an offset that is either `Z` or
`±hh:mm` with hours ≤ 23 and minutes ≤ 59. -/

/-- The fields of a successfully parsed RFC3339 timestamp.
`offset` is in seconds east of UTC. -/
structure ParsedTime where
  year : Nat
  month : Nat
  day : Nat
  hour : Nat
  minute : Nat
  second : Nat
  nsec : Nat
  offset : Int
  deriving Repr, DecidableEq

/-- Nanoseconds from a nonempty run of fraction digits: the first nine
digits, scaled to nanoseconds (Go `parseNanoseconds`, which truncates
the field to nine digits). -/
def nsecOfDigits (ds : List Char) : Nat :=
  ((ds.take 9).foldl (fun a c => a * 10 + dVal c) 0) * 10 ^ (9 - (ds.take 9).length)

/-- Consume an optional fractional-second field.  Present exactly when
the input starts with a period followed by a digit; all following digits
are consumed. -/
def parseFrac (l : List Char) : Nat × List Char :=
  match l with
  | p :: c :: rest =>
    if p = '.' ∧ c.isDigit then
      (nsecOfDigits (c :: rest.takeWhile Char.isDigit), rest.dropWhile Char.isDigit)
    else (0, l)
  | _ => (0, l)

/-- Parse the timezone suffix: `Z`, or a sign, two hour digits (≤ 23), a
colon, and two minute digits (≤ 59).  Returns the offset in seconds. -/
def parseOffset (l : List Char) : Option Int :=
  match l with
  | [z] => if z = 'Z' then some 0 else none
  | [sg, a, b, cl, c, d] =>
    if (sg = '+' ∨ sg = '-') ∧ cl = ':' ∧ a.isDigit ∧ b.isDigit ∧ c.isDigit ∧ d.isDigit ∧
        dVal a * 10 + dVal b ≤ 23 ∧ dVal c * 10 + dVal d ≤ 59 then
      let off : Int := (dVal a * 10 + dVal b) * 3600 + (dVal c * 10 + dVal d) * 60
      some (if sg = '-' then -off else off)
    else none
  | _ => none

/-- Positional parse of the 19-character date-time body followed by the
fraction and offset. -/
def parseChars (l : List Char) : Option ParsedTime :=
  match l with
  | y1 :: y2 :: y3 :: y4 :: c1 :: m1 :: m2 :: c2 :: d1 :: d2 :: c3 :: h1 :: h2 :: c4
      :: i1 :: i2 :: c5 :: s1 :: s2 :: rest =>
    if c1 = '-' ∧ c2 = '-' ∧ c3 = 'T' ∧ c4 = ':' ∧ c5 = ':' ∧
        y1.isDigit ∧ y2.isDigit ∧ y3.isDigit ∧ y4.isDigit ∧
        m1.isDigit ∧ m2.isDigit ∧ d1.isDigit ∧ d2.isDigit ∧
        h1.isDigit ∧ h2.isDigit ∧ i1.isDigit ∧ i2.isDigit ∧
        s1.isDigit ∧ s2.isDigit then
      let year := ((dVal y1 * 10 + dVal y2) * 10 + dVal y3) * 10 + dVal y4
      let month := dVal m1 * 10 + dVal m2
      let day := dVal d1 * 10 + dVal d2
      let hour := dVal h1 * 10 + dVal h2
      let minute := dVal i1 * 10 + dVal i2
      let second := dVal s1 * 10 + dVal s2
      if 1 ≤ month ∧ month ≤ 12 ∧ 1 ≤ day ∧ day ≤ daysIn (isLeapCivil year) month ∧
          hour ≤ 23 ∧ minute ≤ 59 ∧ second ≤ 59 then
        match parseFrac rest with
        | (ns, rest2) =>
          match parseOffset rest2 with
          | some off => some ⟨year, month, day, hour, minute, second, ns, off⟩
          | none => none
      else none
    else none
  | _ => none

/-- Go `time.Parse(time.RFC3339, s)`, strict per Go ≥ 1.20. -/
def parseRFC3339 (s : String) : Option ParsedTime := parseChars s.data

/-! ## Absolute instants -/

/-- 1970-01-01 in the relative-year day coordinate of `yearYday`. -/
def epochDays : Nat := daysFromYearYday 2369 0

/-- 0-based day of year of the given civil field triple (forward
direction, including the leap-day adjustment). -/
def ydayOfFields (year m dd : Nat) : Nat :=
  daysBefore (m - 1) + (if isLeapRel (year + 399) ∧ 3 ≤ m then 1 else 0) + (dd - 1)

/-- Unix seconds denoted by the parsed fields. -/
def unixSecOf (p : ParsedTime) : Int :=
  ((daysFromYearYday (p.year + 399) (ydayOfFields p.year p.month p.day) * 86400
    + p.hour * 3600 + p.minute * 60 + p.second : Nat) : Int)
  - ((epochDays * 86400 : Nat) : Int) - p.offset

/-- Model of Go `time.Time`: an absolute instant (whole unix seconds
plus nanoseconds) together with the display offset of its location in
seconds east of UTC. -/
structure GoTime where
  sec : Int
  nsec : Nat
  offset : Int
  deriving Repr, DecidableEq

/-- Unix seconds of Go's zero `time.Time` (0001-01-01T00:00:00 UTC). -/
def goZeroSec : Int := -62135596800

/-- The zero `time.Time` value. -/
def goTimeZero : GoTime := ⟨goZeroSec, 0, 0⟩

def GoTime.Before (t u : GoTime) : Bool :=
  t.sec < u.sec || (t.sec == u.sec && t.nsec < u.nsec)

def GoTime.After (t u : GoTime) : Bool := u.Before t

def GoTime.IsZero (t : GoTime) : Bool := t.sec == goZeroSec && t.nsec == 0

def GoTime.UTC (t : GoTime) : GoTime := { t with offset := 0 }

/-- The `time.Time` denoted by a parse result (`Z` gives UTC, a numeric
offset gives the corresponding fixed zone). -/
def timeOf (p : ParsedTime) : GoTime := ⟨unixSecOf p, p.nsec, p.offset⟩

/-- `time.Parse(time.RFC3339, s)` as an `Option GoTime`. -/
def parseTime (s : String) : Option GoTime := (parseRFC3339 s).map timeOf

/-! ## RFC3339 formatting (model of Go `t.Format(time.RFC3339)`) -/

/-- Go `appendInt(b, year, 4)`: four-digit zero-padded years, a minus
sign for negative years, no padding beyond four digits (all reachable
years fit in five digits). -/
def renderYear (y : Int) : List Char :=
  if y < 0 then '-' :: pad4 (-y).toNat
  else if y ≤ 9999 then pad4 y.toNat
  else pad5 y.toNat

/-- The `Z07:00` verb: `Z` for offset zero, otherwise `±hh:mm`. -/
def renderOffset (off : Int) : List Char :=
  if off = 0 then ['Z']
  else
    (if off < 0 then '-' else '+') ::
      (pad2 (off.natAbs / 3600) ++ ':' :: pad2 (off.natAbs % 3600 / 60))

/-- Render the civil date-time of second `t` of the nonnegative shifted
timeline (seconds since relative-year 0, day 0), with the year further
shifted by `eraShift * 400` years. -/
def renderAbs (t : Nat) (eraShift : Int) : List Char :=
  let D := t / 86400
  let tod := t % 86400
  let yy := (yearYday D).1
  let md := monthDay (isLeapRel yy) (yearYday D).2
  renderYear ((yy : Int) - 399 + eraShift * 400) ++
    '-' :: pad2 md.1 ++ '-' :: pad2 md.2 ++
    'T' :: pad2 (tod / 3600) ++ ':' :: pad2 (tod % 3600 / 60) ++ ':' :: pad2 (tod % 60)

/-- Seconds in one 400-year Gregorian cycle. -/
def secsPerEra : Nat := 146097 * 86400

/-- Go `t.Format(time.RFC3339)`: render the instant in the civil fields
of `t`'s location.  Instants before relative-year 0 are shifted into the
nonnegative timeline by whole 400-year cycles (such instants are not
produced by any RFC3339 parse; the branch keeps the function total and
correct).  The RFC3339 layout has no fractional-second verb, so `nsec`
is not rendered. -/
def GoTime.Format (t : GoTime) : String :=
  let loc : Int := t.sec + t.offset + ((epochDays * 86400 : Nat) : Int)
  if 0 ≤ loc then
    String.mk (renderAbs loc.toNat 0 ++ renderOffset t.offset)
  else
    let k : Nat := (-loc).toNat / secsPerEra + 1
    String.mk (renderAbs (loc + (k : Int) * (secsPerEra : Nat)).toNat (-(k : Int)) ++
      renderOffset t.offset)

/-- `formatToUTC` from `pullmetrics.go`: re-render a parseable RFC3339
string in UTC, pass anything unparseable through unchanged. -/
def formatToUTC (timestamp : String) : String :=
  match parseRFC3339 timestamp with
  | none => timestamp
  | some p => (GoTime.mk (unixSecOf p) p.nsec 0).Format

/-! ## Round-trip lemmas for formatting and parsing -/

theorem dChar_isDigit (n : Nat) : (dChar n).isDigit = true := by
  unfold dChar
  set k := n % 10 with hk
  have hlt : k < 10 := by omega
  clear_value k
  interval_cases k <;> decide

theorem dVal_dChar (n : Nat) : dVal (dChar n) = n % 10 := by
  unfold dChar dVal
  set k := n % 10 with hk
  have hlt : k < 10 := by omega
  clear_value k
  interval_cases k <;> decide

theorem dChar_ne_dash (n : Nat) : ¬ dChar n = '-' := by
  unfold dChar
  set k := n % 10 with hk
  have hlt : k < 10 := by omega
  clear_value k
  interval_cases k <;> decide

theorem daysFromYearYday_shift (y x j : Nat) :
    daysFromYearYday (y + 400 * j) x = daysFromYearYday y x + 146097 * j := by
  unfold daysFromYearYday
  have h4 : (y + 400 * j) / 4 = y / 4 + 100 * j := by omega
  have h100 : (y + 400 * j) / 100 = y / 100 + 4 * j := by omega
  have h400 : (y + 400 * j) / 400 = y / 400 + j := by omega
  rw [h4, h100, h400]
  have : y / 100 + 4 * j ≤ 365 * (y + 400 * j) + (y / 4 + 100 * j) := by omega
  omega

theorem isLeapRel_shift400 (y j : Nat) : isLeapRel (y + 400 * j) = isLeapRel y := by
  unfold isLeapRel
  have h4 : (y + 400 * j + 1) % 4 = (y + 1) % 4 := by omega
  have h100 : (y + 400 * j + 1) % 100 = (y + 1) % 100 := by omega
  have h400 : (y + 400 * j + 1) % 400 = (y + 1) % 400 := by omega
  rw [h4, h100, h400]

/-- Any successful parse of a rendered civil date-time (with era shift
`e` and a `Z` suffix) reads back exactly the instant that was rendered:
offset and nanoseconds are zero and the parsed fields denote second
`t + e·(400 Gregorian years)` of the shifted timeline. -/
theorem renderAbs_reparse (t : Nat) (e : Int) (p : ParsedTime)
    (h : parseChars (renderAbs t e ++ ['Z']) = some p) :
    p.offset = 0 ∧ p.nsec = 0 ∧
    ((daysFromYearYday (p.year + 399) (ydayOfFields p.year p.month p.day) * 86400
      + p.hour * 3600 + p.minute * 60 + p.second : Nat) : Int)
      = (t : Nat) + e * 12622780800 := by
  simp only [renderAbs] at h
  rcases hyd : yearYday (t / 86400) with ⟨yy, yday⟩
  rw [hyd] at h
  dsimp only at h
  have hyr := yearYday_roundtrip (t / 86400)
  rw [hyd] at hyr
  dsimp only at hyr
  obtain ⟨m, dd, hmd, hm1, hm12, hdd1, hddIn, hfwd⟩ := monthDay_spec (isLeapRel yy) yday hyr.2
  rw [hmd] at h
  dsimp only at h
  set yI : Int := (yy : Int) - 399 + e * 400 with hyI
  unfold renderYear at h
  by_cases hneg : yI < 0
  · rw [if_pos hneg] at h
    simp only [pad4, pad2, List.cons_append, List.nil_append, List.append_assoc] at h
    simp only [parseChars] at h
    split at h
    · rename_i hc
      have : ('-').isDigit = true := hc.2.2.2.2.2.1
      exact absurd this (by decide)
    · exact Option.noConfusion h
  · rw [if_neg hneg] at h
    by_cases h9999 : yI ≤ 9999
    · rw [if_pos h9999] at h
      set y := yI.toNat with hy
      have hyval : (y : Int) = yI := Int.toNat_of_nonneg (by omega)
      -- era alignment between the parsed year and the rendered relative year
      have halign : ∃ a b : Nat, yy + 400 * a = y + 399 + 400 * b ∧
          ((a : Int) - b) * 146097 = e * 146097 := by
        rcases le_or_lt 0 e with he | he
        · refine ⟨e.toNat, 0, ?_, ?_⟩
          · have he' : ((e.toNat : Nat) : Int) = e := Int.toNat_of_nonneg he
            omega
          · have he' : ((e.toNat : Nat) : Int) = e := Int.toNat_of_nonneg he
            omega
        · refine ⟨0, (-e).toNat, ?_, ?_⟩
          · have he' : (((-e).toNat : Nat) : Int) = -e := Int.toNat_of_nonneg (by omega)
            omega
          · have he' : (((-e).toNat : Nat) : Int) = -e := Int.toNat_of_nonneg (by omega)
            omega
      obtain ⟨a, b, hab, habe⟩ := halign
      have hleapy : isLeapRel (y + 399) = isLeapRel yy := by
        rw [← isLeapRel_shift400 (y + 399) b, ← hab, isLeapRel_shift400]
      have hdd31 : dd ≤ 31 := by
        unfold daysIn at hddIn
        split at hddIn
        · omega
        · interval_cases m <;> simp only [daysBefore] at hddIn <;> omega
      simp only [pad4, pad2, List.cons_append, List.nil_append, List.append_assoc] at h
      simp only [parseChars] at h
      split at h
      · rename_i hc
        clear hc
        simp only [dVal_dChar] at h
        have hy9999 : y ≤ 9999 := by omega
        have hyrec : ((y / 1000 % 10 * 10 + y / 100 % 10) * 10 + y / 10 % 10) * 10 + y % 10
            = y := by omega
        have hmrec : m / 10 % 10 * 10 + m % 10 = m := by omega
        have hddrec : dd / 10 % 10 * 10 + dd % 10 = dd := by omega
        have hhrec : t % 86400 / 3600 / 10 % 10 * 10 + t % 86400 / 3600 % 10
            = t % 86400 / 3600 := by omega
        have hmirec : t % 86400 % 3600 / 60 / 10 % 10 * 10 + t % 86400 % 3600 / 60 % 10
            = t % 86400 % 3600 / 60 := by omega
        have hssrec : t % 86400 % 60 / 10 % 10 * 10 + t % 86400 % 60 % 10
            = t % 86400 % 60 := by omega
        rw [hyrec, hmrec, hddrec, hhrec, hmirec, hssrec] at h
        have hleapcv : isLeapCivil y = isLeapRel yy := by
          rw [← isLeapRel_shift y, hleapy]
        rw [hleapcv] at h
        split at h
        · have hfrac : parseFrac ['Z'] = (0, ['Z']) := rfl
          rw [hfrac] at h
          have hoff : parseOffset ['Z'] = some 0 := rfl
          rw [hoff] at h
          have hp : p = ⟨y, m, dd, t % 86400 / 3600, t % 86400 % 3600 / 60,
              t % 86400 % 60, 0, 0⟩ := (Option.some.inj h).symm
          subst hp
          refine ⟨rfl, rfl, ?_⟩
          dsimp only
          have hyof : ydayOfFields y m dd = yday := by
            unfold ydayOfFields
            rw [hleapy]
            exact hfwd
          rw [hyof]
          have hshift1 : daysFromYearYday (yy + 400 * a) yday
              = daysFromYearYday yy yday + 146097 * a := daysFromYearYday_shift yy yday a
          have hshift2 : daysFromYearYday (y + 399 + 400 * b) yday
              = daysFromYearYday (y + 399) yday + 146097 * b :=
            daysFromYearYday_shift (y + 399) yday b
          rw [hab] at hshift1
          have hD := hyr.1
          have ht : t = t / 86400 * 86400 + t % 86400 := by omega
          have htod : t % 86400 / 3600 * 3600 + t % 86400 % 3600 / 60 * 60 + t % 86400 % 60
              = t % 86400 := by omega
          omega
        · exact Option.noConfusion h
      · exact Option.noConfusion h
    · rw [if_neg h9999] at h
      simp only [pad5, pad2, List.cons_append, List.nil_append, List.append_assoc] at h
      simp only [parseChars] at h
      split at h
      · rename_i hc
        exact absurd hc.1 (dChar_ne_dash _)
      · exact Option.noConfusion h

/-- Successful re-parses of a UTC rendering recover the rendered
instant exactly: offset and nanoseconds are zero and the unix seconds
are unchanged.  (`Format` never reads `nsec`, so the rendered string
carries only whole seconds.) -/
theorem format_reparse (sec : Int) (n : Nat) (p : ParsedTime)
    (h : parseRFC3339 ((GoTime.mk sec n 0).Format) = some p) :
    unixSecOf p = sec ∧ p.nsec = 0 ∧ p.offset = 0 := by
  unfold GoTime.Format at h
  dsimp only at h
  have hzoff : renderOffset 0 = ['Z'] := rfl
  split at h
  · rename_i hpos
    rw [hzoff] at h
    have hr := renderAbs_reparse ((sec + 0 + ((epochDays * 86400 : Nat) : Int)).toNat) 0 p h
    refine ⟨?_, hr.2.1, hr.1⟩
    have heq := hr.2.2
    unfold unixSecOf
    rw [hr.1]
    omega
  · rename_i hneg
    rw [hzoff] at h
    set loc : Int := sec + 0 + ((epochDays * 86400 : Nat) : Int) with hloc
    set k : Nat := (-loc).toNat / secsPerEra + 1 with hk
    have hr := renderAbs_reparse ((loc + (k : Int) * (secsPerEra : Nat)).toNat) (-(k : Int)) p h
    refine ⟨?_, hr.2.1, hr.1⟩
    have heq := hr.2.2
    unfold unixSecOf
    rw [hr.1]
    have hsecs : (secsPerEra : Nat) = 12622780800 := rfl
    have hknn : 0 ≤ loc + (k : Int) * (secsPerEra : Nat) := by
      rw [hk, hsecs]
      push_cast
      omega
    rw [hsecs] at heq hknn
    omega

theorem format_nsec_irrelevant (s : Int) (n : Nat) (o : Int) :
    (GoTime.mk s n o).Format = (GoTime.mk s 0 o).Format := rfl

theorem formatToUTC_of_parse (s : String) (p : ParsedTime) (h : parseRFC3339 s = some p) :
    formatToUTC s = (GoTime.mk (unixSecOf p) 0 0).Format := by
  unfold formatToUTC
  rw [h]
  exact format_nsec_irrelevant _ _ _

theorem formatToUTC_of_none (s : String) (h : parseRFC3339 s = none) :
    formatToUTC s = s := by
  unfold formatToUTC
  rw [h]

/-- `formatToUTC` is idempotent on every string. -/
theorem formatToUTC_idem (s : String) : formatToUTC (formatToUTC s) = formatToUTC s := by
  cases hps : parseRFC3339 s with
  | none =>
    rw [formatToUTC_of_none s hps]
    exact formatToUTC_of_none s hps
  | some p =>
    rw [formatToUTC_of_parse s p hps]
    cases hpr : parseRFC3339 ((GoTime.mk (unixSecOf p) 0 0).Format) with
    | none => exact formatToUTC_of_none _ hpr
    | some q =>
      rw [formatToUTC_of_parse _ q hpr]
      have hr := format_reparse (unixSecOf p) 0 q hpr
      rw [hr.1]

/-! ## Durations -/

def maxInt64 : Int := 9223372036854775807
def minInt64 : Int := -9223372036854775808

/-- Go `time.Time.Sub`: the duration between two instants in
nanoseconds, saturating at the int64 `Duration` bounds. -/
def GoTime.Sub (t u : GoTime) : Int :=
  let d := (t.sec - u.sec) * 1000000000 + ((t.nsec : Int) - (u.nsec : Int))
  if d > maxInt64 then maxInt64 else if d < minInt64 then minInt64 else d

/-- Go `Duration.Hours`: nanoseconds divided by 3.6e12 (exact rational;
the IEEE float division is abstracted to exact arithmetic). -/
def durationHours (d : Int) : ℚ := (d : ℚ) / 3600000000000

/-! ## go-github record types (fields consumed by the source)

Pointer-typed fields are `Option`s; each `GetX` accessor returns the
zero value on `none`, as the generated go-github accessors do. -/

structure User where
  login : Option String
  deriving Repr, DecidableEq

def User.GetLogin (u : User) : String := u.login.getD ""

structure PullRequestBranch where
  ref : Option String
  deriving Repr, DecidableEq

def PullRequestBranch.GetRef (b : PullRequestBranch) : String := b.ref.getD ""

structure PullRequest where
  title : Option String
  body : Option String
  state : Option String
  merged : Option Bool
  draft : Option Bool
  createdAt : Option GoTime
  mergedAt : Option GoTime
  closedAt : Option GoTime
  user : Option User
  head : Option PullRequestBranch
  requestedReviewers : List User
  deriving Repr, DecidableEq

def PullRequest.GetTitle (pr : PullRequest) : String := pr.title.getD ""
def PullRequest.GetBody (pr : PullRequest) : String := pr.body.getD ""
def PullRequest.GetState (pr : PullRequest) : String := pr.state.getD ""
def PullRequest.GetMerged (pr : PullRequest) : Bool := pr.merged.getD false
def PullRequest.GetDraft (pr : PullRequest) : Bool := pr.draft.getD false
def PullRequest.GetCreatedAt (pr : PullRequest) : GoTime := pr.createdAt.getD goTimeZero
def PullRequest.GetMergedAt (pr : PullRequest) : GoTime := pr.mergedAt.getD goTimeZero
def PullRequest.GetClosedAt (pr : PullRequest) : GoTime := pr.closedAt.getD goTimeZero
def PullRequest.GetUser (pr : PullRequest) : User := pr.user.getD ⟨none⟩
def PullRequest.GetHead (pr : PullRequest) : PullRequestBranch := pr.head.getD ⟨none⟩

structure PullRequestReview where
  user : Option User
  state : Option String
  submittedAt : Option GoTime
  deriving Repr, DecidableEq

def PullRequestReview.GetUser (r : PullRequestReview) : User := r.user.getD ⟨none⟩
def PullRequestReview.GetState (r : PullRequestReview) : String := r.state.getD ""
def PullRequestReview.GetSubmittedAt (r : PullRequestReview) : GoTime :=
  r.submittedAt.getD goTimeZero

structure IssueComment where
  user : Option User
  createdAt : Option GoTime
  deriving Repr, DecidableEq

def IssueComment.GetUser (c : IssueComment) : User := c.user.getD ⟨none⟩
def IssueComment.GetCreatedAt (c : IssueComment) : GoTime := c.createdAt.getD goTimeZero

structure PullRequestComment where
  user : Option User
  createdAt : Option GoTime
  deriving Repr, DecidableEq

def PullRequestComment.GetUser (c : PullRequestComment) : User := c.user.getD ⟨none⟩
def PullRequestComment.GetCreatedAt (c : PullRequestComment) : GoTime :=
  c.createdAt.getD goTimeZero

structure Timeline where
  event : Option String
  createdAt : Option GoTime
  deriving Repr, DecidableEq

def Timeline.GetEvent (e : Timeline) : String := e.event.getD ""
def Timeline.GetCreatedAt (e : Timeline) : GoTime := e.createdAt.getD goTimeZero

structure CommitAuthor where
  date : Option GoTime
  deriving Repr, DecidableEq

def CommitAuthor.GetDate (a : CommitAuthor) : GoTime := a.date.getD goTimeZero

structure Commit where
  author : Option CommitAuthor
  deriving Repr, DecidableEq

def Commit.GetAuthor (c : Commit) : CommitAuthor := c.author.getD ⟨none⟩

structure RepositoryCommit where
  commit : Option Commit
  deriving Repr, DecidableEq

def RepositoryCommit.GetCommit (c : RepositoryCommit) : Commit := c.commit.getD ⟨none⟩

/-- `commit.GetCommit().GetAuthor().GetDate()` as used by the source. -/
def commitDate (c : RepositoryCommit) : GoTime := c.GetCommit.GetAuthor.GetDate

structure RepositoryRelease where
  name : Option String
  tagName : Option String
  publishedAt : Option GoTime
  createdAt : Option GoTime
  deriving Repr, DecidableEq

def RepositoryRelease.GetName (r : RepositoryRelease) : String := r.name.getD ""
def RepositoryRelease.GetTagName (r : RepositoryRelease) : String := r.tagName.getD ""
def RepositoryRelease.GetPublishedAt (r : RepositoryRelease) : GoTime :=
  r.publishedAt.getD goTimeZero
def RepositoryRelease.GetCreatedAt (r : RepositoryRelease) : GoTime :=
  r.createdAt.getD goTimeZero

/-! ## Derived record types of the package -/

/-- Internal timestamp record (`Timestamps` in the Go source); every
field is a nullable string. -/
structure Timestamps where
  FirstCommit : Option String := none
  CreatedAt : Option String := none
  FirstReviewRequest : Option String := none
  FirstComment : Option String := none
  FirstApproval : Option String := none
  SecondApproval : Option String := none
  MergedAt : Option String := none
  ClosedAt : Option String := none
  deriving Repr, DecidableEq

/-- `PRMetrics`: `DraftTimeHours` is a plain float (always present); the
other metrics are nullable.  The Go fields `BlockingNonBlockingRatio`
and `ReviewerParticipationRatio` are named `...Quot` here. -/
structure PRMetrics where
  DraftTimeHours : ℚ := 0
  TimeToFirstReviewRequestHours : Option ℚ := none
  TimeToFirstReviewHours : Option ℚ := none
  ReviewCycleTimeHours : Option ℚ := none
  BlockingNonBlockingQuot : Option ℚ := none
  ReviewerParticipationQuot : Option ℚ := none
  deriving Repr, DecidableEq

/-- `ReleaseInfo`: name and creation timestamp of the matched release. -/
structure ReleaseInfo where
  Name : String
  CreatedAt : String
  deriving Repr, DecidableEq

/-! ## Sorting

`sort.Slice(x, less)` guarantees only that the slice ends up sorted by
`less`; the relative order of elements neither of which is `less` than
the other is unspecified (the underlying pdqsort is documented as not
stable).  We realize the contract with a stable insertion sort; every
theorem about observable outputs is arranged so this realization choice
is irrelevant.  A transcription of Go's actual pdqsort (`goSortSlice`
below) settles the one claim that is about tie order itself. -/

def orderedInsertGo {α : Type} (less : α → α → Bool) (x : α) : List α → List α
  | [] => [x]
  | y :: ys => if less y x then y :: orderedInsertGo less x ys else x :: y :: ys

def sortSlice {α : Type} (less : α → α → Bool) : List α → List α
  | [] => []
  | x :: xs => orderedInsertGo less x (sortSlice less xs)

/-! ## Classification helpers (`pullmetrics.go`) -/

/-- `strings.Contains` (substring test). -/
def strContains (s sub : String) : Bool :=
  s.data.tails.any (fun t => sub.data.isPrefixOf t)

/-- `strings.HasPrefix`. -/
def strStartsWith (s pre : String) : Bool := pre.data.isPrefixOf s.data

/-- `strings.ToUpper` (ASCII model; the source only uppercases branch
names and regex matches, whose relevant characters are ASCII). -/
def toUpperStr (s : String) : String := String.mk (s.data.map Char.toUpper)

/-- `isBot`: the login contains the literal substring `[bot]`. -/
def isBot (username : String) : Bool := strContains username "[bot]"

/-- `getPRState`: draft wins over merged wins over the raw state. -/
def getPRState (pr : PullRequest) : String :=
  if pr.GetDraft then "draft"
  else if pr.GetMerged then "merged"
  else pr.GetState

/-! ### The Jira issue regex

`regexp.MustCompile` with pattern `\b[A-Z][A-Z0-9]+-\d+\b` (RE2).
`\b` in RE2 is the ASCII word boundary (word characters are
`[0-9A-Za-z_]`).  For this pattern the leftmost match at a position is
unique: `[A-Z0-9]+` is stopped only by the single possible `-`, and
shortening `\d+` cannot create a word boundary, so matching needs no
backtracking.  `FindAllString` scans left to right, taking leftmost
matches and resuming after each match's end. -/

def isWordChar (c : Char) : Bool := c.isAlphanum || c = '_'

def isUpperAZ (c : Char) : Bool := 'A' ≤ c && c ≤ 'Z'

def isKeyChar (c : Char) : Bool := isUpperAZ c || c.isDigit

/-- Length of the (unique) regex match starting at the head of `l`,
where `prev` is the character just before `l` in the scanned text
(`none` at the start of the text). -/
def matchLen (prev : Option Char) (l : List Char) : Option Nat :=
  match l with
  | [] => none
  | c :: rest =>
    if (match prev with | some pc => !isWordChar pc | none => true) && isUpperAZ c then
      if 1 ≤ (rest.takeWhile isKeyChar).length then
        match rest.drop (rest.takeWhile isKeyChar).length with
        | '-' :: rest2 =>
          if 1 ≤ (rest2.takeWhile Char.isDigit).length then
            match (rest2.drop (rest2.takeWhile Char.isDigit).length).head? with
            | none =>
              some (1 + (rest.takeWhile isKeyChar).length + 1 +
                (rest2.takeWhile Char.isDigit).length)
            | some c2 =>
              if isWordChar c2 then none
              else
                some (1 + (rest.takeWhile isKeyChar).length + 1 +
                  (rest2.takeWhile Char.isDigit).length)
          else none
        | _ => none
      else none
    else none

theorem matchLen_pos (prev : Option Char) (l : List Char) (n : Nat)
    (h : matchLen prev l = some n) : 1 ≤ n := by
  unfold matchLen at h
  split at h
  · exact Option.noConfusion h
  · split at h
    · split at h
      · split at h
        · split at h
          · split at h
            · have := Option.some.inj h
              omega
            · split at h
              · exact Option.noConfusion h
              · have := Option.some.inj h
                omega
          · exact Option.noConfusion h
        · exact Option.noConfusion h
      · exact Option.noConfusion h
    · exact Option.noConfusion h

/-- All matches of the pattern in `l`, left to right, non-overlapping
(`FindAllString(text, -1)`).  `prev` is the character before `l`. -/
def scanMatches (prev : Option Char) (l : List Char) : List (List Char) :=
  match hl : l with
  | [] => []
  | c :: rest =>
    match hm : matchLen prev l with
    | none => scanMatches (some c) rest
    | some n => l.take n :: scanMatches (some ((l.take n).getLastD c)) (l.drop n)
  termination_by l.length
  decreasing_by
  · simp [hl]
  · have h1 := matchLen_pos prev l n hm
    simp only [hl] at *
    simp [List.length_drop]
    omega

/-- `findValidJiraIssue`'s loop over the match list: the first match
whose uppercased form does not start with `CVE-`, else the empty
string. -/
def firstNonCVE (mlist : List String) : String :=
  match mlist with
  | [] => ""
  | ms :: rest =>
    let upperMatch := toUpperStr ms
    if !strStartsWith upperMatch "CVE-" then upperMatch else firstNonCVE rest

/-- `findValidJiraIssue` (the compiled pattern argument is the fixed
Jira regex above). -/
def findValidJiraIssue (text : String) : String :=
  firstNonCVE ((scanMatches none text.data).map String.mk)

/-- `extractJiraIssue`: title, then body (if present and non-empty),
then the uppercased head ref; `BOT`/`UNKNOWN` fallback. -/
def extractJiraIssue (pr : PullRequest) : String :=
  let fromTitle := findValidJiraIssue pr.GetTitle
  if fromTitle ≠ "" then fromTitle
  else
    let fromBody := if pr.body ≠ none ∧ pr.GetBody ≠ "" then findValidJiraIssue pr.GetBody
      else ""
    if fromBody ≠ "" then fromBody
    else
      let fromRef := findValidJiraIssue (toUpperStr pr.GetHead.GetRef)
      if fromRef ≠ "" then fromRef
      else if isBot pr.GetUser.GetLogin then "BOT"
      else "UNKNOWN"

/-! ## Aggregation helpers -/

/-- Insertion into a Go map used as a string set (`m[k] = true`). -/
def insertSet (s : List String) (x : String) : List String :=
  if x ∈ s then s else s ++ [x]

/-- `countAllRequestedReviewers`: reviewers who submitted a review plus
the still-pending requested reviewers, deduplicated by login. -/
def countAllRequestedReviewers (pr : PullRequest) (reviews : List PullRequestReview) : Nat :=
  let s := reviews.foldl (fun s r => insertSet s r.GetUser.GetLogin) []
  let s := pr.requestedReviewers.foldl (fun s u => insertSet s u.GetLogin) s
  s.length

/-- The `for ... break` loop finding the first `review_requested`
timeline event (used by `getTimestamps` and
`countCommitsAfterFirstReview`). -/
def firstReviewRequested (timeline : List Timeline) : Option Timeline :=
  match timeline with
  | [] => none
  | e :: rest =>
    if e.GetEvent == "review_requested" then some e else firstReviewRequested rest

/-- `countCommitsAfterFirstReview`: commits whose author date is
strictly after the first `review_requested` event; 0 when there is no
such event. -/
def countCommitsAfterFirstReview (commits : List RepositoryCommit)
    (timeline : List Timeline) : Nat :=
  match firstReviewRequested timeline with
  | none => 0
  | some e =>
    commits.foldl (fun count c => if (commitDate c).After e.GetCreatedAt then count + 1 else count) 0

/-- `findReleaseInfoForMergedPR`: earliest release published strictly
after the merge; name falls back to the tag name; creation timestamp
included when present and non-zero. -/
def findReleaseInfoForMergedPR (pr : PullRequest) (releases : List RepositoryRelease) :
    Option ReleaseInfo :=
  if !pr.GetMerged || pr.mergedAt == none then none
  else
    let mergedTime := pr.GetMergedAt
    let validReleases := releases.filter
      (fun r => r.publishedAt.isSome && !r.GetPublishedAt.IsZero &&
        r.GetPublishedAt.After mergedTime)
    match sortSlice (fun a b => a.GetPublishedAt.Before b.GetPublishedAt) validReleases with
    | [] => none
    | release :: _ =>
      let releaseName := if release.GetName = "" then release.GetTagName else release.GetName
      let releaseCreatedAt :=
        if release.createdAt.isSome && !release.GetCreatedAt.IsZero then
          formatToUTC release.GetCreatedAt.Format
        else ""
      some ⟨releaseName, releaseCreatedAt⟩

/-! ## Timestamp deriver -/

/-- `getTimestamps`.  `sort.Slice(commits, ...)` sorts the caller's
slice in place, so the embedding returns, alongside the `Timestamps`
record, the contents of the `commits` slice after the call (the other
five collections are only read). -/
def getTimestamps (pr : PullRequest) (reviews : List PullRequestReview)
    (comments : List IssueComment) (reviewComments : List PullRequestComment)
    (timeline : List Timeline) (commits : List RepositoryCommit) :
    Timestamps × List RepositoryCommit :=
  let commitsAfter :=
    if 0 < commits.length then sortSlice (fun a b => (commitDate a).Before (commitDate b)) commits
    else commits
  let firstCommit :=
    match commitsAfter with
    | c :: _ => some (formatToUTC (commitDate c).Format)
    | [] => none
  let createdAt :=
    if !pr.GetCreatedAt.IsZero then some (formatToUTC pr.GetCreatedAt.Format) else none
  let mergedAt :=
    match pr.mergedAt with
    | some t => if !(GoTime.IsZero t) then some (formatToUTC t.Format) else none
    | none => none
  let closedAt :=
    match pr.closedAt with
    | some t => if !(GoTime.IsZero t) then some (formatToUTC t.Format) else none
    | none => none
  let firstReviewRequest :=
    (firstReviewRequested timeline).map (fun e => formatToUTC e.GetCreatedAt.Format)
  let allComments : List GoTime :=
    comments.map IssueComment.GetCreatedAt ++ reviewComments.map PullRequestComment.GetCreatedAt
  let firstComment :=
    if 0 < allComments.length then
      match sortSlice GoTime.Before allComments with
      | t :: _ => some (formatToUTC t.Format)
      | [] => none
    else none
  let approvals := reviews.filter (fun r => r.GetState == "APPROVED")
  let approvalsSorted :=
    sortSlice (fun a b => a.GetSubmittedAt.Before b.GetSubmittedAt) approvals
  let firstApproval :=
    approvalsSorted.head?.map (fun r => formatToUTC r.GetSubmittedAt.Format)
  let secondApproval :=
    (approvalsSorted.drop 1).head?.map (fun r => formatToUTC r.GetSubmittedAt.Format)
  (⟨firstCommit, createdAt, firstReviewRequest, firstComment, firstApproval,
    secondApproval, mergedAt, closedAt⟩, commitsAfter)

/-! ## Metrics calculator -/

/-- `calculatePRMetrics`.  The `comments` and `timeline` parameters are
accepted and unused, as in the source. -/
def calculatePRMetrics (pr : PullRequest) (reviews : List PullRequestReview)
    (comments : List IssueComment) (timeline : List Timeline)
    (timestamps : Timestamps) : PRMetrics :=
  let draftHours : ℚ :=
    match timestamps.CreatedAt, timestamps.FirstReviewRequest with
    | some ca, some frr =>
      match parseTime ca, parseTime frr with
      | some createdTime, some firstReviewRequestTime =>
        if firstReviewRequestTime.After createdTime then
          durationHours (firstReviewRequestTime.Sub createdTime)
        else 0
      | _, _ => 0
    | _, _ => 0
  let timeToFirstReviewRequest : Option ℚ :=
    match timestamps.CreatedAt, timestamps.FirstReviewRequest with
    | some ca, some frr =>
      match parseTime ca, parseTime frr with
      | some createdTime, some firstReviewRequestTime =>
        if firstReviewRequestTime.After createdTime then
          some (durationHours (firstReviewRequestTime.Sub createdTime))
        else none
      | _, _ => none
    | _, _ => none
  let timeToFirstReview : Option ℚ :=
    match timestamps.FirstReviewRequest with
    | some frr =>
      match parseTime frr with
      | some firstReviewRequestTime =>
        let fromComment : Option GoTime :=
          match timestamps.FirstComment with
          | some fc => parseTime fc
          | none => none
        let activity : Option GoTime :=
          match timestamps.FirstApproval with
          | some fa =>
            match parseTime fa with
            | some approvalTime =>
              match fromComment with
              | none => some approvalTime
              | some t => if approvalTime.Before t then some approvalTime else some t
            | none => fromComment
          | none => fromComment
        match activity with
        | some act =>
          if act.After firstReviewRequestTime then
            some (durationHours (act.Sub firstReviewRequestTime))
          else none
        | none => none
      | none => none
    | none => none
  let reviewCycle : Option ℚ :=
    match timestamps.FirstReviewRequest with
    | some frr =>
      match parseTime frr with
      | some firstReviewTime =>
        let resolution : Option GoTime :=
          match timestamps.MergedAt with
          | some ma => parseTime ma
          | none =>
            match timestamps.ClosedAt with
            | some cl => parseTime cl
            | none => none
        match resolution with
        | some res =>
          if res.After firstReviewTime then some (durationHours (res.Sub firstReviewTime))
          else none
        | none => none
      | none => none
    | none => none
  let blockingCount :=
    (reviews.filter (fun r => r.GetState == "CHANGES_REQUESTED")).length
  let nonBlockingCount :=
    (reviews.filter (fun r => r.GetState == "COMMENTED" || r.GetState == "APPROVED")).length
  let blockingNonBlocking : Option ℚ :=
    if 0 < nonBlockingCount then some ((blockingCount : ℚ) / (nonBlockingCount : ℚ)) else none
  let actualReviewers :=
    (reviews.foldl (fun s r => insertSet s r.GetUser.GetLogin) []).length
  let requestedReviewers := countAllRequestedReviewers pr reviews
  let participation : Option ℚ :=
    if 0 < requestedReviewers then
      some ((actualReviewers : ℚ) / (requestedReviewers : ℚ))
    else none
  ⟨draftHours, timeToFirstReviewRequest, timeToFirstReview, reviewCycle,
    blockingNonBlocking, participation⟩

/-! ## Supporting lemmas about the set-fold -/

theorem insertSet_nodup (s : List String) (x : String) (hs : s.Nodup) :
    (insertSet s x).Nodup := by
  unfold insertSet
  split
  · exact hs
  · rename_i hx
    rw [List.nodup_append]
    refine ⟨hs, by simp, ?_⟩
    intro a ha hb
    simp only [List.mem_singleton] at hb
    subst hb
    exact hx ha

theorem insertSet_toFinset (s : List String) (x : String) :
    (insertSet s x).toFinset = insert x s.toFinset := by
  unfold insertSet
  split
  · rename_i hx
    rw [Finset.insert_eq_self.mpr (by simpa using hx)]
  · simp only [List.toFinset_append, List.toFinset_cons, List.toFinset_nil]
    rw [Finset.union_comm]
    simp [Finset.insert_eq]

theorem foldl_insertSet_spec (l : List String) :
    ∀ s : List String, s.Nodup →
      (l.foldl insertSet s).Nodup ∧
      (l.foldl insertSet s).toFinset = s.toFinset ∪ l.toFinset := by
  induction l with
  | nil => intro s hs; exact ⟨hs, by simp⟩
  | cons x rest data_ih =>
    intro s hs
    have h1 := data_ih (insertSet s x) (insertSet_nodup s x hs)
    refine ⟨h1.1, ?_⟩
    rw [List.foldl_cons, h1.2, insertSet_toFinset]
    ext a
    simp only [Finset.mem_union, Finset.mem_insert, List.mem_toFinset, List.mem_cons]
    tauto

theorem foldl_insertSet_length_le (l : List String) :
    ∀ s : List String, s.length ≤ (l.foldl insertSet s).length := by
  induction l with
  | nil => intro s; simp
  | cons x rest data_ih =>
    intro s
    refine le_trans ?_ (data_ih (insertSet s x))
    unfold insertSet
    split
    · exact le_refl _
    · simp

/-! ## C6: PR state precedence -/

/-- C6: `getPRState` returns `"draft"` whenever the draft flag is set,
regardless of the merged flag and raw state; otherwise `"merged"` when
the merged flag is set; otherwise the raw state string unchanged. -/
theorem c6_getPRState_precedence (pr : PullRequest) :
    (pr.GetDraft = true → getPRState pr = "draft") ∧
    (pr.GetDraft = false → pr.GetMerged = true → getPRState pr = "merged") ∧
    (pr.GetDraft = false → pr.GetMerged = false → getPRState pr = pr.GetState) := by
  unfold getPRState
  refine ⟨fun h => ?_, fun hd hm => ?_, fun hd hm => ?_⟩ <;> simp_all

/-- Witness for C6 at concrete inputs: a draft flag wins even when the
merged flag is also set and the raw state is `"closed"`; with the draft
flag clear the merged flag wins. -/
theorem c6_getPRState_precedence_witness :
    getPRState ⟨none, none, some "closed", some true, some true,
      none, none, none, none, none, []⟩ = "draft" ∧
    getPRState ⟨none, none, some "closed", some true, some false,
      none, none, none, none, none, []⟩ = "merged" :=
  ⟨(c6_getPRState_precedence _).1 rfl, (c6_getPRState_precedence _).2.1 rfl rfl⟩

/-! ## C7: requested-reviewer count -/

/-- C7: `countAllRequestedReviewers` is the cardinality of the union of
the set of logins that submitted a review and the set of logins in the
pending requested-reviewers list (a login in both is counted once). -/
theorem c7_countAllRequestedReviewers_card (pr : PullRequest)
    (reviews : List PullRequestReview) :
    countAllRequestedReviewers pr reviews =
      ((reviews.map fun r => r.GetUser.GetLogin).toFinset ∪
        (pr.requestedReviewers.map User.GetLogin).toFinset).card := by
  unfold countAllRequestedReviewers
  dsimp only
  have hm1 : (reviews.foldl (fun s r => insertSet s r.GetUser.GetLogin) []) =
      ((reviews.map fun r => r.GetUser.GetLogin).foldl insertSet []) := by
    rw [List.foldl_map]
  have h1 := foldl_insertSet_spec (reviews.map fun r => r.GetUser.GetLogin) [] (by simp)
  have hm2 : ∀ s, (pr.requestedReviewers.foldl (fun s u => insertSet s u.GetLogin) s) =
      ((pr.requestedReviewers.map User.GetLogin).foldl insertSet s) := by
    intro s
    rw [List.foldl_map]
  rw [hm1, hm2]
  have h2 := foldl_insertSet_spec (pr.requestedReviewers.map User.GetLogin) _ h1.1
  rw [← List.toFinset_card_of_nodup h2.1, h2.2, h1.2]
  simp

/-! ## C8: commits after the first review request -/

theorem firstReviewRequested_eq_find (timeline : List Timeline) :
    firstReviewRequested timeline = timeline.find? (fun e => e.GetEvent == "review_requested") := by
  induction timeline with
  | nil => rfl
  | cons e rest data_ih =>
    cases hc : (e.GetEvent == "review_requested") with
    | true => simp [firstReviewRequested, List.find?_cons, hc]
    | false => simp [firstReviewRequested, List.find?_cons, hc, data_ih]

theorem foldl_count_eq_filter_length {α : Type} (p : α → Bool) (l : List α) :
    ∀ n : Nat, l.foldl (fun count c => if p c then count + 1 else count) n
      = n + (l.filter p).length := by
  induction l with
  | nil => intro n; simp
  | cons c rest data_ih =>
    intro n
    rw [List.foldl_cons, data_ih, List.filter_cons]
    split <;> simp <;> omega

/-- C8: `countCommitsAfterFirstReview` finds the first
`review_requested` timeline event in the given order and counts the
commits whose author date is strictly after it; with no such event the
result is 0 regardless of the commits. -/
theorem c8_countCommitsAfterFirstReview_spec (commits : List RepositoryCommit)
    (timeline : List Timeline) :
    countCommitsAfterFirstReview commits timeline =
      match timeline.find? (fun e => e.GetEvent == "review_requested") with
      | none => 0
      | some e => (commits.filter (fun c => (commitDate c).After e.GetCreatedAt)).length := by
  unfold countCommitsAfterFirstReview
  rw [firstReviewRequested_eq_find]
  cases timeline.find? (fun e => e.GetEvent == "review_requested") with
  | none => rfl
  | some e =>
    simpa using foldl_count_eq_filter_length
      (fun c => (commitDate c).After e.GetCreatedAt) commits 0

/-! ## C2: draft time vs time-to-first-review-request -/

/-- C2: `draft_time_hours` is always present: it equals the hours from
`created_at` to `first_review_request` when both are present (as
parseable instants) and the review request is strictly after creation,
and 0.0 otherwise; `time_to_first_review_request_hours`, computed from
the same timestamps under the same strictly-after condition, is instead
absent whenever that condition fails. -/
theorem c2_draft_time_asymmetry (pr : PullRequest) (reviews : List PullRequestReview)
    (comments : List IssueComment) (timeline : List Timeline) (ts : Timestamps) :
    (∀ t1 t2, ts.CreatedAt.bind parseTime = some t1 →
        ts.FirstReviewRequest.bind parseTime = some t2 → t2.After t1 = true →
        (calculatePRMetrics pr reviews comments timeline ts).DraftTimeHours
            = durationHours (t2.Sub t1) ∧
        (calculatePRMetrics pr reviews comments timeline ts).TimeToFirstReviewRequestHours
            = some (durationHours (t2.Sub t1))) ∧
    ((¬ ∃ t1 t2, ts.CreatedAt.bind parseTime = some t1 ∧
        ts.FirstReviewRequest.bind parseTime = some t2 ∧ t2.After t1 = true) →
        (calculatePRMetrics pr reviews comments timeline ts).DraftTimeHours = 0 ∧
        (calculatePRMetrics pr reviews comments timeline ts).TimeToFirstReviewRequestHours
          = none) := by
  have hd : (calculatePRMetrics pr reviews comments timeline ts).DraftTimeHours =
      (match ts.CreatedAt, ts.FirstReviewRequest with
       | some ca, some frr =>
         match parseTime ca, parseTime frr with
         | some createdTime, some firstReviewRequestTime =>
           if firstReviewRequestTime.After createdTime then
             durationHours (firstReviewRequestTime.Sub createdTime)
           else 0
         | _, _ => 0
       | _, _ => 0) := rfl
  have ht : (calculatePRMetrics pr reviews comments timeline ts).TimeToFirstReviewRequestHours =
      (match ts.CreatedAt, ts.FirstReviewRequest with
       | some ca, some frr =>
         match parseTime ca, parseTime frr with
         | some createdTime, some firstReviewRequestTime =>
           if firstReviewRequestTime.After createdTime then
             some (durationHours (firstReviewRequestTime.Sub createdTime))
           else none
         | _, _ => none
       | _, _ => none) := rfl
  constructor
  · intro t1 t2 h1 h2 hafter
    rw [hd, ht]
    cases hca : ts.CreatedAt with
    | none => rw [hca] at h1; exact Option.noConfusion h1
    | some ca =>
      cases hfrr : ts.FirstReviewRequest with
      | none => rw [hfrr] at h2; exact Option.noConfusion h2
      | some frr =>
        rw [hca] at h1
        rw [hfrr] at h2
        simp at h1 h2
        simp [h1, h2, hafter]
  · intro hne
    rw [hd, ht]
    cases hca : ts.CreatedAt with
    | none => exact ⟨rfl, rfl⟩
    | some ca =>
      cases hfrr : ts.FirstReviewRequest with
      | none => exact ⟨rfl, rfl⟩
      | some frr =>
        cases hp1 : parseTime ca with
        | none => simp [hp1]
        | some t1 =>
          cases hp2 : parseTime frr with
          | none => simp [hp1, hp2]
          | some t2 =>
            have hnotafter : ¬ t2.After t1 = true := by
              intro hafter
              exact hne ⟨t1, t2, by rw [hca]; simpa using hp1, by rw [hfrr]; simpa using hp2,
                hafter⟩
            simp [hp1, hp2, hnotafter]

/-- Witness for C2: with both timestamps present and one hour apart the
draft time is 1.0 and the optional metric is present; with an empty
timestamp record the draft time is 0.0 while the optional metric is
absent. -/
theorem c2_draft_time_asymmetry_witness :
    ((calculatePRMetrics ⟨none, none, none, none, none, none, none, none, none, none, []⟩
        [] [] [] ⟨none, some "2023-01-01T10:00:00Z", some "2023-01-01T11:00:00Z",
          none, none, none, none, none⟩).DraftTimeHours = durationHours 3600000000000 ∧
      (calculatePRMetrics ⟨none, none, none, none, none, none, none, none, none, none, []⟩
        [] [] [] ⟨none, some "2023-01-01T10:00:00Z", some "2023-01-01T11:00:00Z",
          none, none, none, none, none⟩).TimeToFirstReviewRequestHours
        = some (durationHours 3600000000000)) ∧
    ((calculatePRMetrics ⟨none, none, none, none, none, none, none, none, none, none, []⟩
        [] [] [] ⟨none, none, none, none, none, none, none, none⟩).DraftTimeHours = 0 ∧
      (calculatePRMetrics ⟨none, none, none, none, none, none, none, none, none, none, []⟩
        [] [] [] ⟨none, none, none, none, none, none, none, none⟩).TimeToFirstReviewRequestHours
        = none) := by
  constructor
  · have h := (c2_draft_time_asymmetry
      ⟨none, none, none, none, none, none, none, none, none, none, []⟩ [] [] []
      ⟨none, some "2023-01-01T10:00:00Z", some "2023-01-01T11:00:00Z",
        none, none, none, none, none⟩).1
      ⟨1672567200, 0, 0⟩ ⟨1672570800, 0, 0⟩ (by decide) (by decide) (by decide)
    have hsub : (GoTime.Sub ⟨1672570800, 0, 0⟩ ⟨1672567200, 0, 0⟩) = 3600000000000 := by decide
    rw [hsub] at h
    exact h
  · exact (c2_draft_time_asymmetry
      ⟨none, none, none, none, none, none, none, none, none, none, []⟩ [] [] []
      ⟨none, none, none, none, none, none, none, none⟩).2
      (by rintro ⟨t1, t2, h1, h2, h3⟩; simp at h1)

/-! ## C10: reviewer participation bounds -/

/-- C10: whenever the reviewer-participation value is present it lies
in [0, 1]: the distinct submitting reviewers are a subset of the union
counted by `countAllRequestedReviewers`, and the value is only produced
when that count is positive. -/
theorem c10_participation_bounds (pr : PullRequest) (reviews : List PullRequestReview)
    (comments : List IssueComment) (timeline : List Timeline) (ts : Timestamps) (q : ℚ)
    (h : (calculatePRMetrics pr reviews comments timeline ts).ReviewerParticipationQuot
      = some q) :
    0 ≤ q ∧ q ≤ 1 := by
  have hq : (calculatePRMetrics pr reviews comments timeline ts).ReviewerParticipationQuot =
      (if 0 < countAllRequestedReviewers pr reviews then
        some ((((reviews.foldl (fun s r => insertSet s r.GetUser.GetLogin) []).length : Nat) : ℚ)
          / ((countAllRequestedReviewers pr reviews : Nat) : ℚ))
      else none) := rfl
  rw [hq] at h
  split at h
  · rename_i hpos
    have hle : (reviews.foldl (fun s r => insertSet s r.GetUser.GetLogin) []).length
        ≤ countAllRequestedReviewers pr reviews := by
      unfold countAllRequestedReviewers
      dsimp only
      have hm2 : (pr.requestedReviewers.foldl (fun s u => insertSet s u.GetLogin)
          (reviews.foldl (fun s r => insertSet s r.GetUser.GetLogin) [])) =
          ((pr.requestedReviewers.map User.GetLogin).foldl insertSet
            (reviews.foldl (fun s r => insertSet s r.GetUser.GetLogin) [])) := by
        rw [List.foldl_map]
      rw [hm2]
      exact foldl_insertSet_length_le (pr.requestedReviewers.map User.GetLogin) _
    have hqv := (Option.some.inj h).symm
    subst hqv
    constructor
    · apply div_nonneg <;> positivity
    · rw [div_le_one (by exact_mod_cast hpos)]
      exact_mod_cast hle
  · exact Option.noConfusion h

/-- Witness for C10: one submitted review and one distinct pending
reviewer give a present value 1/2, within bounds. -/
theorem c10_participation_bounds_witness :
    0 ≤ (((1 : Nat) : ℚ) / ((2 : Nat) : ℚ)) ∧ (((1 : Nat) : ℚ) / ((2 : Nat) : ℚ)) ≤ 1 :=
  c10_participation_bounds
    ⟨none, none, none, none, none, none, none, none, none, none, [⟨some "p1"⟩]⟩
    [⟨some ⟨some "r1"⟩, some "APPROVED", none⟩] [] []
    ⟨none, none, none, none, none, none, none, none⟩ (((1 : Nat) : ℚ) / ((2 : Nat) : ℚ)) rfl

/-! ## Ordering facts for `GoTime.Before` and `sortSlice` -/

theorem GoTime.before_iff (t u : GoTime) :
    t.Before u = true ↔ (t.sec < u.sec ∨ (t.sec = u.sec ∧ t.nsec < u.nsec)) := by
  unfold GoTime.Before
  simp

theorem GoTime.before_eq_false (t u : GoTime) :
    t.Before u = false ↔ ¬ (t.sec < u.sec ∨ (t.sec = u.sec ∧ t.nsec < u.nsec)) := by
  rw [Bool.eq_false_iff]
  exact not_congr (GoTime.before_iff t u)

theorem GoTime.before_self (t : GoTime) : t.Before t = false := by
  rw [GoTime.before_eq_false]
  omega

theorem orderedInsertGo_perm {α : Type} (less : α → α → Bool) (x : α) (l : List α) :
    (orderedInsertGo less x l).Perm (x :: l) := by
  induction l with
  | nil => exact List.Perm.refl _
  | cons y ys data_ih =>
    unfold orderedInsertGo
    split
    · exact ((data_ih.cons y).trans (List.Perm.swap x y ys))
    · exact List.Perm.refl _

theorem sortSlice_perm {α : Type} (less : α → α → Bool) (l : List α) :
    (sortSlice less l).Perm l := by
  induction l with
  | nil => exact List.Perm.refl _
  | cons x xs data_ih =>
    exact (orderedInsertGo_perm less x (sortSlice less xs)).trans (data_ih.cons x)

theorem orderedInsertGo_pairwise {α : Type} (less : α → α → Bool)
    (htrans : ∀ a b c, (!less b a) = true → (!less c b) = true → (!less c a) = true)
    (htot : ∀ a b, ((!less b a) || (!less a b)) = true) (x : α) (l : List α)
    (hpw : List.Pairwise (fun a b => (!less b a) = true) l) :
    List.Pairwise (fun a b => (!less b a) = true) (orderedInsertGo less x l) := by
  induction l with
  | nil => simp [orderedInsertGo]
  | cons y ys data_ih =>
    obtain ⟨hy, hys⟩ := List.pairwise_cons.mp hpw
    unfold orderedInsertGo
    split
    · rename_i hlyx
      refine List.pairwise_cons.mpr ⟨?_, data_ih hys⟩
      intro z hz
      rcases List.mem_cons.mp ((orderedInsertGo_perm less x ys).mem_iff.mp hz) with hzx | hzys
      · rw [hzx]
        simpa [hlyx] using htot x y
      · exact hy z hzys
    · rename_i hlyx
      refine List.pairwise_cons.mpr ⟨?_, hpw⟩
      intro z hz
      have hxy : (!less y x) = true := by
        rw [Bool.not_eq_true']
        exact Bool.of_not_eq_true hlyx
      rcases List.mem_cons.mp hz with hzy | hzys
      · rw [hzy]
        exact hxy
      · exact htrans x y z hxy (hy z hzys)

theorem sortSlice_pairwise {α : Type} (less : α → α → Bool)
    (htrans : ∀ a b c, (!less b a) = true → (!less c b) = true → (!less c a) = true)
    (htot : ∀ a b, ((!less b a) || (!less a b)) = true) (l : List α) :
    List.Pairwise (fun a b => (!less b a) = true) (sortSlice less l) := by
  induction l with
  | nil => simp [sortSlice]
  | cons x xs data_ih =>
    exact orderedInsertGo_pairwise less htrans htot x (sortSlice less xs) data_ih

/-- Key-extracted transitivity for the not-`Before` relation. -/
theorem notBefore_trans {α : Type} (key : α → GoTime) (a b c : α)
    (h1 : (!(key b).Before (key a)) = true) (h2 : (!(key c).Before (key b)) = true) :
    (!(key c).Before (key a)) = true := by
  rw [Bool.not_eq_true', GoTime.before_eq_false] at h1 h2 ⊢
  omega

/-- Key-extracted totality for the not-`Before` relation. -/
theorem notBefore_total {α : Type} (key : α → GoTime) (a b : α) :
    ((!(key b).Before (key a)) || (!(key a).Before (key b))) = true := by
  rw [Bool.or_eq_true, Bool.not_eq_true', Bool.not_eq_true',
    GoTime.before_eq_false, GoTime.before_eq_false]
  rcases Int.lt_trichotomy (key a).sec (key b).sec with h | h | h
  · left; omega
  · rcases Nat.lt_or_ge (key a).nsec (key b).nsec with h2 | h2
    · left; omega
    · right; omega
  · right; omega

/-! ## C4: release matching for a merged PR -/

/-- C4: for a merged PR with a merge timestamp, the reported release is
one of the candidates (publish timestamp present, non-zero, strictly
after the merge) with minimal publish timestamp, and its name is the
display name with the tag name as fallback when the display name is
empty; with no candidates, or for an unmerged PR or one without a merge
timestamp, no release is reported. -/
theorem c4_release_selection (pr : PullRequest) (releases : List RepositoryRelease) :
    (¬ (pr.GetMerged = true ∧ pr.mergedAt ≠ none) →
      findReleaseInfoForMergedPR pr releases = none) ∧
    (releases.filter (fun r => r.publishedAt.isSome && !r.GetPublishedAt.IsZero &&
        r.GetPublishedAt.After pr.GetMergedAt) = [] →
      findReleaseInfoForMergedPR pr releases = none) ∧
    (∀ info, findReleaseInfoForMergedPR pr releases = some info →
      ∃ r, r ∈ releases.filter (fun r => r.publishedAt.isSome && !r.GetPublishedAt.IsZero &&
          r.GetPublishedAt.After pr.GetMergedAt) ∧
        (∀ s ∈ releases.filter (fun r => r.publishedAt.isSome && !r.GetPublishedAt.IsZero &&
            r.GetPublishedAt.After pr.GetMergedAt),
          s.GetPublishedAt.Before r.GetPublishedAt = false) ∧
        info.Name = (if r.GetName = "" then r.GetTagName else r.GetName)) := by
  unfold findReleaseInfoForMergedPR
  dsimp only
  refine ⟨?_, ?_, ?_⟩
  · intro hng
    have hcond : (!pr.GetMerged || pr.mergedAt == none) = true := by
      rcases Decidable.not_and_iff_or_not.mp hng with hm | hm
      · simp [Bool.not_eq_true] at hm ⊢
        exact Or.inl hm
      · simp at hm
        simp [hm]
    rw [if_pos hcond]
  · intro hemp
    split
    · rfl
    · rw [hemp]
      rfl

  · intro info hsome
    split at hsome
    · exact Option.noConfusion hsome
    · rename_i hcond
      rcases hsort : sortSlice (fun a b => a.GetPublishedAt.Before b.GetPublishedAt)
          (releases.filter (fun r => r.publishedAt.isSome && !r.GetPublishedAt.IsZero &&
            r.GetPublishedAt.After pr.GetMergedAt)) with - | ⟨r, rest⟩
      · rw [hsort] at hsome
        exact Option.noConfusion hsome
      · rw [hsort] at hsome
        dsimp only at hsome
        have hinfo := (Option.some.inj hsome).symm
        have hperm := sortSlice_perm (fun a b => a.GetPublishedAt.Before b.GetPublishedAt)
          (releases.filter (fun r => r.publishedAt.isSome && !r.GetPublishedAt.IsZero &&
            r.GetPublishedAt.After pr.GetMergedAt))
        rw [hsort] at hperm
        have hpw := sortSlice_pairwise (fun a b => a.GetPublishedAt.Before b.GetPublishedAt)
          (fun a b c => notBefore_trans RepositoryRelease.GetPublishedAt a b c)
          (fun a b => notBefore_total RepositoryRelease.GetPublishedAt a b)
          (releases.filter (fun r => r.publishedAt.isSome && !r.GetPublishedAt.IsZero &&
            r.GetPublishedAt.After pr.GetMergedAt))
        rw [hsort] at hpw
        refine ⟨r, ?_, ?_, ?_⟩
        · exact hperm.mem_iff.mp (by simp)
        · intro s hs
          have hsmem : s ∈ r :: rest := hperm.mem_iff.mpr hs
          rcases List.mem_cons.mp hsmem with hrfl | htl
          · subst hrfl
            exact GoTime.before_self _
          · have := (List.pairwise_cons.mp hpw).1 s htl
            rwa [Bool.not_eq_true'] at this
        · rw [hinfo]

/-- Witness for C4 at concrete inputs: among releases published at
seconds 5000, 2000, 1500 and 500 around a merge at second 1000, the
release at 1500 is selected, and its empty display name falls back to
the tag name `v3`. -/
theorem c4_release_selection_witness :
    ∃ r, r ∈ ([⟨some "R5", some "v5", some ⟨5000, 0, 0⟩, none⟩,
        ⟨some "R2", some "v2", some ⟨2000, 0, 0⟩, none⟩,
        ⟨some "", some "v3", some ⟨1500, 0, 0⟩, none⟩,
        ⟨some "old", some "v0", some ⟨500, 0, 0⟩, none⟩] :
          List RepositoryRelease).filter (fun r => r.publishedAt.isSome &&
            !r.GetPublishedAt.IsZero && r.GetPublishedAt.After
              (PullRequest.GetMergedAt ⟨none, none, none, some true, none, none,
                some ⟨1000, 0, 0⟩, none, none, none, []⟩)) ∧
      (∀ s ∈ ([⟨some "R5", some "v5", some ⟨5000, 0, 0⟩, none⟩,
          ⟨some "R2", some "v2", some ⟨2000, 0, 0⟩, none⟩,
          ⟨some "", some "v3", some ⟨1500, 0, 0⟩, none⟩,
          ⟨some "old", some "v0", some ⟨500, 0, 0⟩, none⟩] :
            List RepositoryRelease).filter (fun r => r.publishedAt.isSome &&
              !r.GetPublishedAt.IsZero && r.GetPublishedAt.After
                (PullRequest.GetMergedAt ⟨none, none, none, some true, none, none,
                  some ⟨1000, 0, 0⟩, none, none, none, []⟩)),
        s.GetPublishedAt.Before r.GetPublishedAt = false) ∧
      ReleaseInfo.Name ⟨"v3", ""⟩ =
        (if r.GetName = "" then r.GetTagName else r.GetName) :=
  (c4_release_selection
    ⟨none, none, none, some true, none, none, some ⟨1000, 0, 0⟩, none, none, none, []⟩
    [⟨some "R5", some "v5", some ⟨5000, 0, 0⟩, none⟩,
     ⟨some "R2", some "v2", some ⟨2000, 0, 0⟩, none⟩,
     ⟨some "", some "v3", some ⟨1500, 0, 0⟩, none⟩,
     ⟨some "old", some "v0", some ⟨500, 0, 0⟩, none⟩]).2.2 ⟨"v3", ""⟩ (by decide)

/-! ## C5: the frame of `getTimestamps` -/

/-- C5 (amended): `getTimestamps` reads its collections without
mutating them except for `commits`: `sort.Slice` reorders the caller's
commits slice in place, leaving it a permutation of the input in
nondecreasing author-date order. -/
theorem c5_getTimestamps_commits_sorted (pr : PullRequest)
    (reviews : List PullRequestReview) (comments : List IssueComment)
    (reviewComments : List PullRequestComment) (timeline : List Timeline)
    (commits : List RepositoryCommit) :
    ((getTimestamps pr reviews comments reviewComments timeline commits).2).Perm commits ∧
    List.Pairwise (fun a b => (!(commitDate b).Before (commitDate a)) = true)
      (getTimestamps pr reviews comments reviewComments timeline commits).2 := by
  have h2 : (getTimestamps pr reviews comments reviewComments timeline commits).2 =
      (if 0 < commits.length then
        sortSlice (fun a b => (commitDate a).Before (commitDate b)) commits
      else commits) := rfl
  rw [h2]
  split
  · exact ⟨sortSlice_perm _ _,
      sortSlice_pairwise _ (fun a b c => notBefore_trans commitDate a b c)
        (fun a b => notBefore_total commitDate a b) _⟩
  · rename_i hlen
    have : commits = [] := by
      cases commits with
      | nil => rfl
      | cons c cs => exact absurd (by simp) hlen
    rw [this]
    exact ⟨List.Perm.refl _, List.Pairwise.nil⟩

/-- C5 counterexample: `getTimestamps` does not leave the commits list
unchanged — with two commits in decreasing author-date order, the
commits slice contents after the call differ from the input. -/
theorem c5_commits_mutated_counterexample :
    (getTimestamps ⟨none, none, none, none, none, none, none, none, none, none, []⟩
      [] [] [] []
      [⟨some ⟨some ⟨some ⟨2, 0, 0⟩⟩⟩⟩, ⟨some ⟨some ⟨some ⟨1, 0, 0⟩⟩⟩⟩]).2 ≠
    [⟨some ⟨some ⟨some ⟨2, 0, 0⟩⟩⟩⟩, ⟨some ⟨some ⟨some ⟨1, 0, 0⟩⟩⟩⟩] := by
  decide

/-! ## C9: formatToUTC round-trip, passthrough and idempotence -/

/-- C9 (amended): if the input parses as RFC3339, `formatToUTC` renders
the parsed instant truncated to whole seconds in UTC, and re-parsing
the output — when it succeeds — yields exactly that truncated instant;
if the input does not parse it is returned unchanged; in both cases
`formatToUTC` is idempotent. -/
theorem c9_formatToUTC_roundtrip (s : String) :
    (∀ p, parseRFC3339 s = some p →
      formatToUTC s = (GoTime.mk (unixSecOf p) 0 0).Format ∧
      (∀ t', parseTime (formatToUTC s) = some t' →
        t'.sec = unixSecOf p ∧ t'.nsec = 0 ∧ t'.offset = 0)) ∧
    (parseRFC3339 s = none → formatToUTC s = s) ∧
    formatToUTC (formatToUTC s) = formatToUTC s := by
  refine ⟨?_, formatToUTC_of_none s, formatToUTC_idem s⟩
  intro p hp
  refine ⟨formatToUTC_of_parse s p hp, ?_⟩
  intro t' ht'
  rw [formatToUTC_of_parse s p hp] at ht'
  unfold parseTime at ht'
  cases hq : parseRFC3339 ((GoTime.mk (unixSecOf p) 0 0).Format) with
  | none =>
    rw [hq] at ht'
    exact Option.noConfusion ht'
  | some q =>
    rw [hq] at ht'
    simp only [Option.map_some'] at ht'
    have hr := format_reparse (unixSecOf p) 0 q hq
    have ht'' := (Option.some.inj ht').symm
    rw [ht'']
    unfold timeOf
    exact ⟨hr.1, hr.2.1, hr.2.2⟩

/-- C9 counterexample: for a parseable input carrying fractional
seconds, the formatter's output does not re-parse to the same instant —
the half second is dropped — so the round-trip clause of the claim
fails as stated. -/
theorem c9_fractional_counterexample :
    (parseTime "2023-01-15T10:30:45.5Z").map (fun t => (t.sec, t.nsec))
      = some (1673778645, 500000000) ∧
    formatToUTC "2023-01-15T10:30:45.5Z" = "2023-01-15T10:30:45Z" ∧
    (parseTime (formatToUTC "2023-01-15T10:30:45.5Z")).map (fun t => (t.sec, t.nsec))
      = some (1673778645, 0) ∧
    (500000000 : Nat) ≠ 0 := by
  refine ⟨by decide, by decide, by decide, by decide⟩

/-- Witness for C9: a concrete parseable input with a non-UTC offset is
re-rendered in UTC and idempotent, and a concrete unparseable input
passes through unchanged. -/
theorem c9_formatToUTC_roundtrip_witness :
    formatToUTC "2023-01-15T10:30:45-08:00" =
      (GoTime.mk (unixSecOf ⟨2023, 1, 15, 10, 30, 45, 0, -28800⟩) 0 0).Format ∧
    formatToUTC "invalid-timestamp" = "invalid-timestamp" ∧
    formatToUTC (formatToUTC "2023-01-15T10:30:45-08:00")
      = formatToUTC "2023-01-15T10:30:45-08:00" :=
  ⟨((c9_formatToUTC_roundtrip "2023-01-15T10:30:45-08:00").1
      ⟨2023, 1, 15, 10, 30, 45, 0, -28800⟩ (by decide)).1,
   (c9_formatToUTC_roundtrip "invalid-timestamp").2.1 (by decide),
   (c9_formatToUTC_roundtrip "2023-01-15T10:30:45-08:00").2.2⟩

/-! ## C1: issue-key extraction -/

theorem scanMatches_ne_nil_aux : ∀ (n : Nat) (prev : Option Char) (l : List Char),
    l.length ≤ n → ∀ m ∈ scanMatches prev l, m ≠ [] := by
  intro n
  induction n with
  | zero =>
    intro prev l hl m hm
    have hnil : l = [] := List.length_eq_zero.mp (Nat.le_zero.mp hl)
    subst hnil
    rw [scanMatches] at hm
    exact absurd hm (List.not_mem_nil m)
  | succ n ih =>
    intro prev l hl m hm
    cases l with
    | nil =>
      rw [scanMatches] at hm
      exact absurd hm (List.not_mem_nil m)
    | cons c rest =>
      rw [scanMatches] at hm
      cases hml : matchLen prev (c :: rest) with
      | none =>
        rw [hml] at hm
        have hr : rest.length ≤ n := by simp at hl; omega
        exact ih (some c) rest hr m hm
      | some k =>
        rw [hml] at hm
        rcases List.mem_cons.mp hm with hmk | hmrec
        · have hk := matchLen_pos prev (c :: rest) k hml
          subst hmk
          cases k with
          | zero => omega
          | succ k' => simp [List.take_cons]
        · have hlen : ((c :: rest).drop k).length ≤ n := by
            have hk := matchLen_pos prev (c :: rest) k hml
            have : (c :: rest).length ≤ n + 1 := hl
            simp only [List.length_drop]
            simp at this
            omega
          exact ih _ _ hlen m hmrec

theorem scanMatches_ne_nil (prev : Option Char) (l : List Char) :
    ∀ m ∈ scanMatches prev l, m ≠ [] :=
  scanMatches_ne_nil_aux l.length prev l (le_refl _)

/-- The candidate issue keys of one searched text, per the claim's
wording: all regex matches, left to right, uppercased, with the
`CVE-`-prefixed ones removed. -/
def specIssueKeyCandidates (text : String) : List String :=
  ((scanMatches none text.data).map (fun m => toUpperStr (String.mk m))).filter
    (fun k => !strStartsWith k "CVE-")

theorem firstNonCVE_eq (ms : List String) :
    firstNonCVE ms = ((ms.map toUpperStr).filter (fun k => !strStartsWith k "CVE-")).headD "" := by
  induction ms with
  | nil => rfl
  | cons m rest data_ih =>
    unfold firstNonCVE
    dsimp only
    rw [List.map_cons, List.filter_cons]
    by_cases hc : (!strStartsWith (toUpperStr m) "CVE-") = true
    · rw [if_pos hc, if_pos hc]
      rfl
    · rw [if_neg hc, if_neg hc]
      exact data_ih

theorem findValidJiraIssue_eq (text : String) :
    findValidJiraIssue text = (specIssueKeyCandidates text).headD "" := by
  unfold findValidJiraIssue specIssueKeyCandidates
  rw [firstNonCVE_eq, List.map_map]
  rfl

theorem specIssueKeyCandidates_ne_empty (text : String) :
    ∀ k ∈ specIssueKeyCandidates text, k ≠ "" := by
  intro k hk
  unfold specIssueKeyCandidates at hk
  obtain ⟨m, hm, rfl⟩ := List.mem_map.mp (List.mem_of_mem_filter hk)
  have hne := scanMatches_ne_nil none text.data m hm
  intro heq
  apply hne
  have hdata : (toUpperStr (String.mk m)).data = [] := by rw [heq]
  unfold toUpperStr at hdata
  simp only at hdata
  exact List.map_eq_nil_iff.mp hdata

/-- The issue-key extraction as the claim words it: search the title,
then the body when present and non-empty, then the uppercased head ref;
in each text take the first non-`CVE-` match (uppercased); fall back to
`BOT` for bot authors and `UNKNOWN` otherwise. -/
def specExtractIssueKey (pr : PullRequest) : String :=
  let texts := [pr.GetTitle] ++
    (if pr.body ≠ none ∧ pr.GetBody ≠ "" then [pr.GetBody] else []) ++
    [toUpperStr pr.GetHead.GetRef]
  match texts.findSome? (fun text => (specIssueKeyCandidates text).head?) with
  | some k => k
  | none => if isBot pr.GetUser.GetLogin then "BOT" else "UNKNOWN"

/-- C1: `extractJiraIssue` coincides with the claim's description of
the search order, the per-text first non-CVE match, and the
`BOT`/`UNKNOWN` fallback. -/
theorem c1_extractJiraIssue_refines (pr : PullRequest) :
    extractJiraIssue pr = specExtractIssueKey pr := by
  unfold extractJiraIssue specExtractIssueKey
  dsimp only
  rw [findValidJiraIssue_eq pr.GetTitle]
  cases h1 : specIssueKeyCandidates pr.GetTitle with
  | cons a1 t1 =>
    have ha1 : a1 ≠ "" := specIssueKeyCandidates_ne_empty pr.GetTitle a1 (by rw [h1]; simp)
    simp only [List.headD_cons, List.cons_append, List.findSome?_cons]
    rw [h1]
    simp only [List.head?_cons]
    rw [if_pos ha1]
  | nil =>
    simp only [List.headD_nil, List.cons_append, List.findSome?_cons]
    rw [h1]
    simp only [List.head?_nil]
    rw [if_neg (fun h => h rfl)]
    by_cases hb : (pr.body ≠ none ∧ pr.GetBody ≠ "")
    · rw [if_pos hb, if_pos hb, findValidJiraIssue_eq pr.GetBody]
      cases h2 : specIssueKeyCandidates pr.GetBody with
      | cons a2 t2 =>
        have ha2 : a2 ≠ "" := specIssueKeyCandidates_ne_empty pr.GetBody a2 (by rw [h2]; simp)
        simp only [List.headD_cons, List.nil_append, List.cons_append, List.findSome?_cons]
        rw [h2]
        simp only [List.head?_cons]
        rw [if_pos ha2]
      | nil =>
        simp only [List.headD_nil, List.nil_append, List.cons_append, List.findSome?_cons]
        rw [h2]
        simp only [List.head?_nil]
        rw [if_neg (fun h => h rfl), findValidJiraIssue_eq (toUpperStr pr.GetHead.GetRef)]
        cases h3 : specIssueKeyCandidates (toUpperStr pr.GetHead.GetRef) with
        | cons a3 t3 =>
          have ha3 : a3 ≠ "" := specIssueKeyCandidates_ne_empty _ a3 (by rw [h3]; simp)
          simp only [List.headD_cons, List.findSome?_cons, List.head?_cons]
          rw [if_pos ha3]
        | nil =>
          simp only [List.headD_nil, List.findSome?_cons, List.head?_nil]
          rw [if_neg (fun h => h rfl)]
          rfl
    · rw [if_neg hb, if_neg hb, findValidJiraIssue_eq (toUpperStr pr.GetHead.GetRef)]
      simp only [List.nil_append, List.findSome?_cons]
      rw [if_neg (fun h => h rfl)]
      cases h3 : specIssueKeyCandidates (toUpperStr pr.GetHead.GetRef) with
      | cons a3 t3 =>
        have ha3 : a3 ≠ "" := specIssueKeyCandidates_ne_empty _ a3 (by rw [h3]; simp)
        simp only [List.headD_cons, List.head?_cons]
        rw [if_pos ha3]
      | nil =>
        simp only [List.headD_nil, List.head?_nil]
        rw [if_neg (fun h => h rfl)]
        rfl

/-! ## C3: approval ordering and `sort.Slice`

`getTimestamps` orders the approvals with `sort.Slice`
(pullmetrics.go:502), whose contract guarantees only sortedness and is
documented as not stable.  `sortSlice` above realises that contract; the
definitions below are a faithful transcription of the algorithm
`sort.Slice` actually runs (`pdqsort` from the Go standard library's
`sort` package, `slice.go` and `zsortfunc.go`, unchanged across the Go
versions the module supports), used to settle the claim's stability
assertion.  Go's loops are written as fuel recursion; every loop in the
source strictly shrinks a nonnegative quantity bounded by the slice
length, so the fuel of 1000 is never exhausted on the inputs evaluated
here, and on exhaustion the state is returned unchanged. -/

instance : Inhabited GoTime := ⟨goTimeZero⟩

instance : Inhabited PullRequestReview := ⟨⟨none, none, none⟩⟩

section GoSortSlice

variable {α : Type} [Inhabited α] (less : α → α → Bool)

/-- Element swap on the underlying slice (no-op out of range; all calls
below are in range). -/
def aswap (d : Array α) (i j : Nat) : Array α :=
  if h1 : i < d.size then
    if h2 : j < d.size then d.swap ⟨i, h1⟩ ⟨j, h2⟩ else d
  else d

/-- `data.Less(i, j)` of Go's `lessSwap`. -/
def aless (d : Array α) (i j : Nat) : Bool := less (d.get! i) (d.get! j)

def bitsLenAux : Nat → Nat → Nat
  | 0, _ => 0
  | fuel + 1, n => if n = 0 then 0 else bitsLenAux fuel (n / 2) + 1

/-- `bits.Len` for `uint` arguments (all arguments here are below `2^64`). -/
def bitsLen (n : Nat) : Nat := bitsLenAux 64 n

/-- `nextPowerOfTwo` from Go's sort package. -/
def nextPowerOfTwo (length : Nat) : Nat := 1 <<< bitsLen length

/-- One step of the `xorshift` generator seeded with the slice length:
`*r ^= *r << 13; *r ^= *r >> 7; *r ^= *r << 17` on `uint64`. -/
def xorshiftNext (s : Nat) : Nat :=
  let s1 := Nat.xor s ((s <<< 13) % 2 ^ 64)
  let s2 := Nat.xor s1 (s1 >>> 7)
  Nat.xor s2 ((s2 <<< 17) % 2 ^ 64)

def insertionSortInner : Nat → Array α → Nat → Nat → Array α
  | 0, d, _, _ => d
  | fuel + 1, d, a, j =>
    if a < j && aless less d j (j - 1) then
      insertionSortInner fuel (aswap d j (j - 1)) a (j - 1)
    else d

def insertionSortOuter : Nat → Array α → Nat → Nat → Nat → Array α
  | 0, d, _, _, _ => d
  | fuel + 1, d, a, b, i =>
    if i < b then
      insertionSortOuter fuel (insertionSortInner less 1000 d a i) a b (i + 1)
    else d

/-- `insertionSort_func` sorts `data[a:b]` using insertion sort. -/
def insertionSortFunc (d : Array α) (a b : Nat) : Array α :=
  insertionSortOuter less 1000 d a b (a + 1)

/-- `siftDown_func` implements the heap property on `data[lo:hi]`. -/
def siftDownFunc : Nat → Array α → Nat → Nat → Nat → Array α
  | 0, d, _, _, _ => d
  | fuel + 1, d, root, hi, first =>
    let child0 := 2 * root + 1
    if hi ≤ child0 then d
    else
      let child :=
        if child0 + 1 < hi && aless less d (first + child0) (first + child0 + 1) then
          child0 + 1
        else child0
      if !aless less d (first + root) (first + child) then d
      else siftDownFunc fuel (aswap d (first + root) (first + child)) child hi first

def heapSortBuild : Nat → Array α → Nat → Nat → Array α
  | 0, d, _, _ => d
  | i + 1, d, hi, first => heapSortBuild i (siftDownFunc less 1000 d i hi first) hi first

def heapSortPop : Nat → Array α → Nat → Array α
  | 0, d, _ => d
  | i + 1, d, first =>
    heapSortPop i (siftDownFunc less 1000 (aswap d first (first + i)) 0 i first) first

/-- `heapSort_func`: build the heap with the greatest element at the top,
then pop elements, largest first, into the end of the slice. -/
def heapSortFunc (d : Array α) (a b : Nat) : Array α :=
  let first := a
  let hi := b - a
  heapSortPop less hi (heapSortBuild less ((hi - 1) / 2 + 1) d hi first) first

/-- `order2_func` returns `x, y` with `data[x] <= data[y]`, counting swaps. -/
def order2Func (d : Array α) (a b swaps : Nat) : Nat × Nat × Nat :=
  if aless less d b a then (b, a, swaps + 1) else (a, b, swaps)

/-- `median_func` returns the index of the median of the three, counting swaps. -/
def medianFunc (d : Array α) (a b c swaps : Nat) : Nat × Nat :=
  match order2Func less d a b swaps with
  | (a1, b1, s1) =>
    match order2Func less d b1 c s1 with
    | (b2, _, s2) =>
      match order2Func less d a1 b2 s2 with
      | (_, b3, s3) => (b3, s3)

/-- `medianAdjacent_func`: median of `data[a-1], data[a], data[a+1]`. -/
def medianAdjacentFunc (d : Array α) (a swaps : Nat) : Nat × Nat :=
  medianFunc less d (a - 1) a (a + 1) swaps

/-- `choosePivot_func` chooses a pivot in `data[a:b]` and reports a
sortedness hint (`0` unknown, `1` increasing, `2` decreasing, the values
of Go's `sortedHint` constants). -/
def choosePivotFunc (d : Array α) (a b : Nat) : Nat × Nat :=
  let l := b - a
  let i0 := a + l / 4 * 1
  let j0 := a + l / 4 * 2
  let k0 := a + l / 4 * 3
  if 8 ≤ l then
    let ijks : Nat × Nat × Nat × Nat :=
      if 50 ≤ l then
        match medianAdjacentFunc less d i0 0 with
        | (i1, s1) =>
          match medianAdjacentFunc less d j0 s1 with
          | (j1, s2) =>
            match medianAdjacentFunc less d k0 s2 with
            | (k1, s3) => (i1, j1, k1, s3)
      else (i0, j0, k0, 0)
    match ijks with
    | (i, j, k, s) =>
      match medianFunc less d i j k s with
      | (j2, swaps) =>
        if swaps = 12 then (j2, 2) else if swaps = 0 then (j2, 1) else (j2, 0)
  else (j0, 1)

def reverseRangeLoop : Nat → Array α → Nat → Nat → Array α
  | 0, d, _, _ => d
  | fuel + 1, d, i, j =>
    if i < j then reverseRangeLoop fuel (aswap d i j) (i + 1) (j - 1) else d

/-- `reverseRange_func` reverses `data[a:b]`. -/
def reverseRangeFunc (d : Array α) (a b : Nat) : Array α :=
  reverseRangeLoop 1000 d a (b - 1)

def pisScan : Nat → Array α → Nat → Nat → Nat
  | 0, _, i, _ => i
  | fuel + 1, d, i, b =>
    if i < b && !aless less d i (i - 1) then pisScan fuel d (i + 1) b else i

def pisLeft : Nat → Array α → Nat → Array α
  | 0, d, _ => d
  | fuel + 1, d, j =>
    if 1 ≤ j then
      if !aless less d j (j - 1) then d
      else pisLeft fuel (aswap d j (j - 1)) (j - 1)
    else d

def pisRight : Nat → Array α → Nat → Nat → Array α
  | 0, d, _, _ => d
  | fuel + 1, d, j, b =>
    if j < b then
      if !aless less d j (j - 1) then d
      else pisRight fuel (aswap d j (j - 1)) (j + 1) b
    else d

def pisOuter : Nat → Array α → Nat → Nat → Nat → Array α × Bool
  | 0, d, _, _, _ => (d, false)
  | cnt + 1, d, a, b, i =>
    let i := pisScan less 1000 d i b
    if i = b then (d, true)
    else if b - a < 50 then (d, false)
    else
      let d := aswap d i (i - 1)
      let d := if 2 ≤ i - a then pisLeft less 1000 d (i - 1) else d
      let d := if 2 ≤ b - i then pisRight less 1000 d (i + 1) b else d
      pisOuter cnt d a b i

/-- `partialInsertionSort_func` partially sorts a slice and reports
whether it ended up fully sorted (at most `maxSteps = 5` shifted pairs,
no shifting below `shortestShifting = 50` elements). -/
def partialInsertionSortFunc (d : Array α) (a b : Nat) : Array α × Bool :=
  pisOuter less 5 d a b (a + 1)

def bpOther (v modulus length : Nat) : Nat :=
  let o := Nat.land v (modulus - 1)
  if length ≤ o then o - length else o

/-- `breakPatterns_func` scatters three elements around the pivot
candidate area using the `xorshift` generator. -/
def breakPatternsFunc (d : Array α) (a b : Nat) : Array α :=
  let length := b - a
  if 8 ≤ length then
    let modulus := nextPowerOfTwo length
    let idx := a + length / 4 * 2 - 1
    let r1 := xorshiftNext length
    let d1 := aswap d (idx - 1) (a + bpOther r1 modulus length)
    let r2 := xorshiftNext r1
    let d2 := aswap d1 idx (a + bpOther r2 modulus length)
    let r3 := xorshiftNext r2
    aswap d2 (idx + 1) (a + bpOther r3 modulus length)
  else d

def partScanI : Nat → Array α → Nat → Nat → Nat → Nat
  | 0, _, _, i, _ => i
  | fuel + 1, d, a, i, j =>
    if i ≤ j && aless less d i a then partScanI fuel d a (i + 1) j else i

def partScanJ : Nat → Array α → Nat → Nat → Nat → Nat
  | 0, _, _, _, j => j
  | fuel + 1, d, a, i, j =>
    if i ≤ j && !aless less d j a then partScanJ fuel d a i (j - 1) else j

def partitionLoop : Nat → Array α → Nat → Nat → Nat → Array α × Nat × Bool
  | 0, d, _, _, j => (d, j, false)
  | fuel + 1, d, a, i, j =>
    let i := partScanI less 1000 d a i j
    let j := partScanJ less 1000 d a i j
    if j < i then (aswap d j a, j, false)
    else partitionLoop fuel (aswap d i j) a (i + 1) (j - 1)

/-- `partition_func` does one quicksort partition of `data[a:b]` around
`data[pivot]` and reports whether the slice was already partitioned. -/
def partitionFunc (d : Array α) (a b pivot : Nat) : Array α × Nat × Bool :=
  let d := aswap d a pivot
  let i := partScanI less 1000 d a (a + 1) (b - 1)
  let j := partScanJ less 1000 d a i (b - 1)
  if j < i then (aswap d j a, j, true)
  else partitionLoop less 1000 (aswap d i j) a (i + 1) (j - 1)

def eqScanI : Nat → Array α → Nat → Nat → Nat → Nat
  | 0, _, _, i, _ => i
  | fuel + 1, d, a, i, j =>
    if i ≤ j && !aless less d a i then eqScanI fuel d a (i + 1) j else i

def eqScanJ : Nat → Array α → Nat → Nat → Nat → Nat
  | 0, _, _, _, j => j
  | fuel + 1, d, a, i, j =>
    if i ≤ j && aless less d a j then eqScanJ fuel d a i (j - 1) else j

def partitionEqualLoop : Nat → Array α → Nat → Nat → Nat → Array α × Nat
  | 0, d, _, i, _ => (d, i)
  | fuel + 1, d, a, i, j =>
    let i := eqScanI less 1000 d a i j
    let j := eqScanJ less 1000 d a i j
    if j < i then (d, i)
    else partitionEqualLoop fuel (aswap d i j) a (i + 1) (j - 1)

/-- `partitionEqual_func` partitions `data[a:b]` into elements equal to
`data[pivot]` followed by elements greater than it. -/
def partitionEqualFunc (d : Array α) (a b pivot : Nat) : Array α × Nat :=
  let d := aswap d a pivot
  partitionEqualLoop less 1000 d a (a + 1) (b - 1)

/-- `pdqsort_func` sorts `data[a:b]`; `limit` bounds the number of bad
pivot choices before falling back to heapsort. -/
def pdqsortLoop : Nat → Array α → Nat → Nat → Nat → Bool → Bool → Array α
  | 0, d, _, _, _, _, _ => d
  | fuel + 1, d, a, b, limit, wasBalanced, wasPartitioned =>
    let length := b - a
    if length ≤ 12 then insertionSortFunc less d a b
    else if limit = 0 then heapSortFunc less d a b
    else
      let dl : Array α × Nat :=
        if !wasBalanced then (breakPatternsFunc d a b, limit - 1) else (d, limit)
      match dl with
    | (d, limit) =>
      match choosePivotFunc less d a b with
      | (pivot0, hint0) =>
        let dph : Array α × Nat × Nat :=
          if hint0 = 2 then
            (reverseRangeFunc d a b, b - 1 - (pivot0 - a), 1)
          else (d, pivot0, hint0)
        match dph with
        | (d, pivot, hint) =>
          let pis : Array α × Bool :=
            if wasBalanced && wasPartitioned && hint = 1 then
              partialInsertionSortFunc less d a b
            else (d, false)
          match pis with
          | (d, true) => d
          | (d, false) =>
            if 0 < a && !aless less d (a - 1) pivot then
              match partitionEqualFunc less d a b pivot with
              | (d, mid) => pdqsortLoop fuel d mid b limit wasBalanced wasPartitioned
            else
              match partitionFunc less d a b pivot with
              | (d, mid, already) =>
                let leftLen := mid - a
                let rightLen := b - mid
                let newBalanced := Nat.ble (length / 8) (min leftLen rightLen)
                if leftLen < rightLen then
                  pdqsortLoop fuel (pdqsortLoop fuel d a mid limit true true)
                    (mid + 1) b limit newBalanced already
                else
                  pdqsortLoop fuel (pdqsortLoop fuel d (mid + 1) b limit true true)
                    a mid limit newBalanced already

/-- `sort.Slice`: `pdqsort(data, 0, length, bits.Len(uint(length)))`. -/
def goSortSliceArr (d : Array α) : Array α :=
  pdqsortLoop less 1000 d 0 d.size (bitsLen d.size) true true

/-- `sort.Slice` acting on a list (the commits, comment times, and
approvals that `getTimestamps` sorts are slices). -/
def goSortSlice (l : List α) : List α :=
  (goSortSliceArr less l.toArray).toList

end GoSortSlice

/-- A review with login `login`, verdict `APPROVED`, and submission time
`k` hours after a fixed base instant. -/
def c3Review (k : Nat) (login : String) : PullRequestReview :=
  ⟨some ⟨some login⟩, some "APPROVED", some ⟨1700000000 + 3600 * (k : Int), 0, 0⟩⟩

/-- Thirteen approved reviews (13 exceeds pdqsort's insertion-sort cutoff
of 12); the reviews `u1`, `u3` and `u9` share one submission time. -/
def c3Reviews : List PullRequestReview :=
  [c3Review 2 "u0", c3Review 1 "u1", c3Review 4 "u2", c3Review 1 "u3",
   c3Review 7 "u4", c3Review 7 "u5", c3Review 7 "u6", c3Review 6 "u7",
   c3Review 3 "u8", c3Review 1 "u9", c3Review 7 "u10", c3Review 0 "u11",
   c3Review 6 "u12"]

set_option maxRecDepth 100000 in
/-- C3, counterexample to the stability clause: on these thirteen reviews
the algorithm `sort.Slice` runs (pdqsort) produces an order that is
sorted by submission time but reverses the input order of the
equal-time reviews `u1`, `u3` and `u9`, so ties are not resolved by
original input order. -/
theorem c3_stability_counterexample :
    c3Reviews.map (fun r => r.GetUser.GetLogin) =
      ["u0", "u1", "u2", "u3", "u4", "u5", "u6", "u7", "u8", "u9", "u10", "u11", "u12"] ∧
    (c3Reviews[1]?).map PullRequestReview.GetSubmittedAt
      = (c3Reviews[3]?).map PullRequestReview.GetSubmittedAt ∧
    (goSortSlice (fun a b => a.GetSubmittedAt.Before b.GetSubmittedAt) c3Reviews).map
        (fun r => r.GetUser.GetLogin)
      = ["u11", "u9", "u3", "u1", "u0", "u8", "u2", "u7", "u12", "u4", "u5", "u6", "u10"] ∧
    List.Pairwise (fun r1 r2 => (r2.GetSubmittedAt.Before r1.GetSubmittedAt) = false)
      (goSortSlice (fun a b => a.GetSubmittedAt.Before b.GetSubmittedAt) c3Reviews) := by
  decide!

/-- The approvals filter of `getTimestamps`. -/
def approvedReviews (reviews : List PullRequestReview) : List PullRequestReview :=
  reviews.filter (fun r => r.GetState == "APPROVED")

/-- The sorted approvals of `getTimestamps` under the `sortSlice`
realisation of the `sort.Slice` contract. -/
def approvalsSorted (reviews : List PullRequestReview) : List PullRequestReview :=
  sortSlice (fun a b => a.GetSubmittedAt.Before b.GetSubmittedAt) (approvedReviews reviews)

/-- Non-strict lexicographic order on (seconds, nanoseconds) keys. -/
def lexLeKey (p q : Int × Nat) : Prop :=
  p.1 < q.1 ∨ (p.1 = q.1 ∧ p.2 ≤ q.2)

instance : IsAntisymm (Int × Nat) lexLeKey := by
  refine ⟨?_⟩
  intro p q h1 h2
  obtain ⟨ps, pn⟩ := p
  obtain ⟨qs, qn⟩ := q
  unfold lexLeKey at h1 h2
  simp only at h1 h2
  have hs : ps = qs := by omega
  have hn : pn = qn := by omega
  rw [hs, hn]

instance : DecidablePred (fun p : (Int × Nat) × (Int × Nat) => lexLeKey p.1 p.2) := by
  intro p
  unfold lexLeKey
  infer_instance

/-- C3 (amended): `first_approval` and `second_approval` are the
formatted submission times of the 1st and 2nd entries of the
`APPROVED`-filtered reviews arranged ascending by submission time
(absent when fewer than 1 or 2 exist), and the sequence of
(seconds, nanoseconds) submission instants of ANY ascending arrangement
is the same, so the reported timestamps do not depend on how the sort
breaks ties; the original claim's stronger stability clause (ties keep
input order) is refuted by `c3_stability_counterexample`. -/
theorem c3_approvals (pr : PullRequest) (reviews : List PullRequestReview)
    (comments : List IssueComment) (reviewComments : List PullRequestComment)
    (timeline : List Timeline) (commits : List RepositoryCommit) :
    (approvedReviews reviews).Perm (approvalsSorted reviews) ∧
    (approvalsSorted reviews).Pairwise
      (fun r1 r2 => (r2.GetSubmittedAt.Before r1.GetSubmittedAt) = false) ∧
    (getTimestamps pr reviews comments reviewComments timeline commits).1.FirstApproval
      = (approvalsSorted reviews).head?.map
          (fun r => formatToUTC r.GetSubmittedAt.Format) ∧
    (getTimestamps pr reviews comments reviewComments timeline commits).1.SecondApproval
      = ((approvalsSorted reviews).drop 1).head?.map
          (fun r => formatToUTC r.GetSubmittedAt.Format) ∧
    ∀ l' : List PullRequestReview,
      (approvedReviews reviews).Perm l' →
      l'.Pairwise (fun r1 r2 => (r2.GetSubmittedAt.Before r1.GetSubmittedAt) = false) →
      l'.map (fun r => (r.GetSubmittedAt.sec, r.GetSubmittedAt.nsec))
        = (approvalsSorted reviews).map (fun r => (r.GetSubmittedAt.sec, r.GetSubmittedAt.nsec)) := by
  have hsp := sortSlice_pairwise (fun a b => a.GetSubmittedAt.Before b.GetSubmittedAt)
    (fun a b c h1 h2 => notBefore_trans PullRequestReview.GetSubmittedAt a b c h1 h2)
    (fun a b => notBefore_total PullRequestReview.GetSubmittedAt a b)
    (approvedReviews reviews)
  have hsorted : (approvalsSorted reviews).Pairwise
      (fun r1 r2 => (r2.GetSubmittedAt.Before r1.GetSubmittedAt) = false) :=
    hsp.imp (fun h => by rwa [Bool.not_eq_true'] at h)
  refine ⟨(sortSlice_perm _ _).symm, hsorted, rfl, rfl, ?_⟩
  intro l' hperm hpair
  have hpm : (l'.map (fun r => (r.GetSubmittedAt.sec, r.GetSubmittedAt.nsec))).Perm
      ((approvalsSorted reviews).map (fun r => (r.GetSubmittedAt.sec, r.GetSubmittedAt.nsec))) :=
    (hperm.symm.trans (sortSlice_perm _ _).symm).map _
  have hkey : ∀ (m : List PullRequestReview),
      m.Pairwise (fun r1 r2 => (r2.GetSubmittedAt.Before r1.GetSubmittedAt) = false) →
      (m.map (fun r => (r.GetSubmittedAt.sec, r.GetSubmittedAt.nsec))).Pairwise lexLeKey := by
    intro m hm
    refine List.pairwise_map.mpr (hm.imp ?_)
    intro r1 r2 h
    rw [GoTime.before_eq_false] at h
    unfold lexLeKey
    simp only
    omega
  exact List.eq_of_perm_of_sorted hpm (hkey l' hpair) (hkey _ hsorted)

/-- A pull request with every field absent. -/
def prW3 : PullRequest := ⟨none, none, none, none, none, none, none, none, none, none, []⟩

def rA3 : PullRequestReview :=
  ⟨some ⟨some "ua"⟩, some "APPROVED", some ⟨1673778645, 0, 0⟩⟩

def rB3 : PullRequestReview :=
  ⟨some ⟨some "ub"⟩, some "APPROVED", some ⟨1673778645, 0, 0⟩⟩

def rC3 : PullRequestReview :=
  ⟨some ⟨some "uc"⟩, some "COMMENTED", some ⟨1673778000, 0, 0⟩⟩

def rvW3 : List PullRequestReview := [rC3, rA3, rB3]

theorem c3_approvals_witness :
    (getTimestamps prW3 rvW3 [] [] [] []).1.FirstApproval = some "2023-01-15T10:30:45Z" ∧
    (getTimestamps prW3 rvW3 [] [] [] []).1.SecondApproval = some "2023-01-15T10:30:45Z" ∧
    ([rB3, rA3]).map (fun r => (r.GetSubmittedAt.sec, r.GetSubmittedAt.nsec))
      = (approvalsSorted rvW3).map (fun r => (r.GetSubmittedAt.sec, r.GetSubmittedAt.nsec)) := by
  have h := c3_approvals prW3 rvW3 [] [] [] []
  refine ⟨?_, ?_, ?_⟩
  · rw [h.2.2.1]
    decide
  · rw [h.2.2.2.1]
    decide
  · exact h.2.2.2.2 [rB3, rA3] (by decide) (by decide)

end PullMetrics
